import Mathlib

/-!
# ScgiClient: a verification development

A shallow embedding of `src/ScgiClient.js` (the SCGI gateway of DDJarod/ScgiClient)
and theorems about it.

Conventions of the embedding

* A JavaScript string is a `List Char` (`Str`); a byte is a `Nat` below 256.
* Objects with identity (requests, transports) are named by natural numbers.
* The event emitters of Node are made explicit: a listener that the source registers is a
  field of the state, and emitting an event is a function on the state.
* The calls that the source makes on its collaborators (the response sink, the backend
  transport, the `Connection` emitter) are recorded in lists, in call order.
-/

namespace ScgiClient

/-- A JavaScript string, as the list of its characters. -/
abbrev Str := List Char

/-! ## Connectors, the pool and the queue (`Connection`, `handle`, `handleRequest`) -/

/-- The argument of the `Connection` constructor when it is not a function:
`{host, port}` or `{socket}`; a property that is absent is `none`. -/
structure ConnectionSpec where
  host : Option Str
  port : Option Nat
  socket : Option Str
deriving DecidableEq, Repr

/-- The object built by `getConnectorFromConnectionSpec` (lines 288-300):
`{connect, specification, id}`. The `connect` function is determined by the
specification it is bound to, so it is not a field of its own. -/
structure Connector where
  id : Nat
  specification : ConnectionSpec
deriving DecidableEq, Repr

/-- The transport `server` that `handleRequest` obtains from `_serverConnector.connect()`
(line 174), with what the closures registered on it capture: the request `_req`, the
connector `_serverConnector`, and whether the listener of `server.once('end', ...)`
(line 180) is still registered. -/
structure Server where
  req : Nat
  connector : Connector
  endListener : Bool
deriving DecidableEq, Repr

/-- The calls made by `handle` and by the `'end'` listener of `handleRequest`, as they are
recorded in `Connection.log`. `server` is the index of the transport in
`Connection.servers`. -/
inductive Event where
  /-- Line 168: `this.waitingRequests[this.waitingRequests.length] = handleRequest.bind(...)`. -/
  | queued (req : Nat)
  /-- Line 174: `_serverConnector.connect()`, the start of an Exchange. -/
  | connect (server : Nat) (req : Nat) (connector : Connector)
  /-- Line 182: `cgiResult.cleanup()`. -/
  | cleanup (server : Nat)
  /-- Line 183: `this.emit('end', _req, _serverConnector.id)`. -/
  | emitEnd (server : Nat) (req : Nat) (id : Nat)
  /-- Line 187: `waitingRequest(_serverConnector)`, the connector goes to the head of the queue. -/
  | handOver (server : Nat) (connector : Connector) (req : Nat)
  /-- Line 191: `this.idleServerConnectors[this.idleServerConnectors.length] = _serverConnector`. -/
  | idle (server : Nat) (connector : Connector)
deriving DecidableEq, Repr

/-- The state of a `Connection` object: the two queues of lines 88-89, the transports created
so far, and the record of calls. An element of `waitingRequests` is the bound function
`handleRequest.bind(this, _req, _res)`, named by its request. An element of
`idleServerConnectors` is a connector object or `null` (`none`): line 108 pushes whatever
`getConnectorFromConnectionSpec` returns. -/
structure Connection where
  waitingRequests : List Nat
  idleServerConnectors : List (Option Connector)
  servers : List Server
  log : List Event
deriving DecidableEq, Repr

/-- The state in which the constructor (lines 79-121) leaves the queues when it has pushed
the connectors `cs`: nothing waits, no transport exists. -/
def Connection.ofConnectors (cs : List (Option Connector)) : Connection :=
  { waitingRequests := [], idleServerConnectors := cs, servers := [], log := [] }

/-- Lines 172-202, `handleRequest`: open a transport with the connector and register the
`once('end')` listener on it. The `'close'` listener on the request (line 200) is found
again by `reqClose` from the `req` field of the transport. -/
def handleRequest (s : Connection) (req : Nat) (c : Connector) : Connection :=
  { s with
    servers := s.servers ++ [{ req := req, connector := c, endListener := true }]
    log := s.log ++ [Event.connect s.servers.length req c] }

/-- Lines 159-169 of `Connection.prototype.handle`: `shift()` an idle connector; when it is
truthy start the Exchange, otherwise (the list was empty, or its head was `null`) append the
bound `handleRequest` to `waitingRequests`. -/
def handle (s : Connection) (req : Nat) : Connection :=
  match s.idleServerConnectors with
  | some c :: rest => handleRequest { s with idleServerConnectors := rest } req c
  | none :: rest =>
    { s with idleServerConnectors := rest
             waitingRequests := s.waitingRequests ++ [req]
             log := s.log ++ [Event.queued req] }
  | [] =>
    { s with waitingRequests := s.waitingRequests ++ [req]
             log := s.log ++ [Event.queued req] }

/-- The body of the listener of lines 180-193 for the transport `sid`, whose captured
variables are `sv`: cleanup unless `_noCgiCleanup`, emit `'end'`, then hand the connector to
the head of `waitingRequests` or append it to `idleServerConnectors`. -/
def endHandler (s : Connection) (sid : Nat) (sv : Server) (noCgiCleanup : Bool) : Connection :=
  let s1 : Connection :=
    { s with log := s.log ++ (if noCgiCleanup then [] else [Event.cleanup sid])
                    ++ [Event.emitEnd sid sv.req sv.connector.id] }
  match s1.waitingRequests with
  | w :: ws =>
    handleRequest
      { s1 with waitingRequests := ws
                log := s1.log ++ [Event.handOver sid sv.connector w] } w sv.connector
  | [] =>
    { s1 with idleServerConnectors := s1.idleServerConnectors ++ [some sv.connector]
              log := s1.log ++ [Event.idle sid sv.connector] }

/-- The call `server.emit('end', _noCgiCleanup)` on the transport `sid`. The listener was
registered with `once`: it is removed before it is called, and an emit that finds no
listener does nothing. -/
def emitEnd (s : Connection) (sid : Nat) (noCgiCleanup : Bool) : Connection :=
  match s.servers[sid]? with
  | none => s
  | some sv =>
    if sv.endListener then
      endHandler { s with servers := s.servers.set sid { sv with endListener := false } }
        sid sv noCgiCleanup
    else s

/-- The transports on which a `'close'` listener of the request `req` emits (lines 196-200):
one per `handleRequest` call made for `req`, in registration order. -/
def closeTargets (s : Connection) (req : Nat) : List Nat :=
  (List.range s.servers.length).filter (fun i =>
    match s.servers[i]? with
    | some sv => sv.req == req
    | none => false)

/-- The request `req` emits `'close'`: each listener registered when the event is emitted
runs `server.emit('end', true)` (line 197). A listener added while the event is delivered
is not called for it. -/
def reqClose (s : Connection) (req : Nat) : Connection :=
  (closeTargets s req).foldl (fun st sid => emitEnd st sid true) s

/-- What can happen to a `Connection`: a request is submitted, a backend transport emits
`'end'` by itself (no argument, so `_noCgiCleanup` is falsy), a request emits `'close'`. -/
inductive Op where
  | handle (req : Nat)
  | serverEnd (server : Nat)
  | reqClose (req : Nat)
deriving DecidableEq, Repr

/-- One step. -/
def step (s : Connection) : Op → Connection
  | Op.handle req => handle s req
  | Op.serverEnd sid => emitEnd s sid false
  | Op.reqClose req => reqClose s req

/-- A sequence of steps, from left to right. -/
def run (s : Connection) (ops : List Op) : Connection :=
  ops.foldl step s

/-- The connectors that the release steps of the transport `sid` (line 187 or line 191)
recorded in a log released, one per release step, in order. -/
def releasedConnectors (sid : Nat) (log : List Event) : List Connector :=
  log.filterMap (fun e =>
    match e with
    | Event.handOver i c _ => if i = sid then some c else none
    | Event.idle i c => if i = sid then some c else none
    | _ => none)

/-- Whether the step is a termination trigger of the Exchange on transport `sid` serving
`req`: the backend `'end'` of that transport, or the `'close'` of that request. -/
def Op.triggers (sid req : Nat) : Op → Bool
  | Op.handle _ => false
  | Op.serverEnd i => i == sid
  | Op.reqClose r => r == req

/-- The requests appended to `waitingRequests`, in the order of the appends. -/
def queuedRequests (log : List Event) : List Nat :=
  log.filterMap (fun e =>
    match e with
    | Event.queued r => some r
    | _ => none)

/-- The requests whose Exchange was started from `waitingRequests`, in the order of the starts. -/
def dequeuedRequests (log : List Event) : List Nat :=
  log.filterMap (fun e =>
    match e with
    | Event.handOver _ _ r => some r
    | _ => none)

/-- The connectors in `idleServerConnectors`. -/
def idleConnectors (s : Connection) : List Connector :=
  s.idleServerConnectors.filterMap id

/-- The connectors bound to an active Exchange: a transport whose `'end'` listener has not
run yet. -/
def activeConnectors (s : Connection) : List Connector :=
  (s.servers.filter (fun sv => sv.endListener)).map (fun sv => sv.connector)

/-! ## Strings, bytes and the modules the source requires

`DynamicBuffer`, `net`, `url` and `cgi/parser` are modules that the source requires and that
are not part of the repository. They are embedded by what the source relies on: a
`DynamicBuffer` is a growable byte array, a transport records what is written to it, and the
results of `url.parse` and of the response parser are inputs. -/

/-- The UTF-8 encoding of one character, as bytes. -/
def utf8EncodeChar (c : Char) : List Nat :=
  let n := c.toNat
  if n < 0x80 then [n]
  else if n < 0x800 then [0xC0 + n / 0x40, 0x80 + n % 0x40]
  else if n < 0x10000 then [0xE0 + n / 0x1000, 0x80 + n / 0x40 % 0x40, 0x80 + n % 0x40]
  else [0xF0 + n / 0x40000, 0x80 + n / 0x1000 % 0x40, 0x80 + n / 0x40 % 0x40, 0x80 + n % 0x40]

/-- The bytes of a string in UTF-8, the encoding in which `DynamicBuffer.append` and
`net.Socket.write` store a string. -/
def utf8 (s : Str) : List Nat :=
  s.flatMap utf8EncodeChar

/-- A `DynamicBuffer`: the bytes appended so far. -/
structure DynamicBuffer where
  bytes : List Nat
deriving DecidableEq, Repr

/-- The expression `new DynamicBuffer()`. -/
def DynamicBuffer.new : DynamicBuffer := { bytes := [] }

/-- The method `append(string)`: the bytes of the string are added at the end. -/
def DynamicBuffer.append (b : DynamicBuffer) (s : Str) : DynamicBuffer :=
  { bytes := b.bytes ++ utf8 s }

/-- The method `write(byte)`: one byte is added at the end. -/
def DynamicBuffer.write (b : DynamicBuffer) (byte : Nat) : DynamicBuffer :=
  { bytes := b.bytes ++ [byte % 256] }

/-- The property `length`: the number of bytes in the buffer. -/
def DynamicBuffer.length (b : DynamicBuffer) : Nat := b.bytes.length

/-- The method `getBuffer()`: the content. -/
def DynamicBuffer.getBuffer (b : DynamicBuffer) : List Nat := b.bytes

/-- The method `clone(size, factor)`: a buffer with the same content; the two arguments
only size the underlying storage. -/
def DynamicBuffer.clone (b : DynamicBuffer) : DynamicBuffer := { bytes := b.bytes }

/-- The chain `.append(key).write(0).append(value).write(0)` that the source uses for
every name/value pair (lines 115-118, 139-145, 150). -/
def appendPair (b : DynamicBuffer) (kv : Str × Str) : DynamicBuffer :=
  (((b.append kv.1).write 0).append kv.2).write 0

/-- The result of `Number.prototype.toString()` for an integer: its decimal numeral. -/
def numberToString (i : Int) : Str :=
  if i < 0 then '-' :: Nat.toDigits 10 i.natAbs else Nat.toDigits 10 i.toNat

/-- The result of `x || d` for a string or `undefined` `x`: `undefined` and the empty string
are falsy. -/
def orElse (x : Option Str) (d : Str) : Str :=
  match x with
  | some (c :: cs) => c :: cs
  | _ => d

/-- The result of `String.prototype.slice(start)` with an integer or `undefined` argument:
`undefined` is 0 and a negative start counts from the end. Positions count characters. -/
def jsSlice (s : Str) (start : Option Int) : Str :=
  match start with
  | none => s
  | some i => if i < 0 then s.drop (s.length - i.natAbs) else s.drop i.toNat

/-! ## The header-name cache (`headerPropertyMap`, `httpHeaderToScgiHeaderProperty`) -/

/-- A value read from a property of the object `headerPropertyMap`: `undefined`, a string,
or something that is neither (a function or an object). -/
inductive JSValue where
  | undefined
  | string (s : Str)
  | object (name : Str)
deriving DecidableEq, Repr

/-- The truth value of a value in a condition: `undefined` and `''` are falsy. -/
def JSValue.truthy : JSValue → Bool
  | JSValue.undefined => false
  | JSValue.string s => !s.isEmpty
  | JSValue.object _ => true

/-- The property names that every object literal `{}` inherits from `Object.prototype`. -/
def objectPrototypeMembers : List Str :=
  ["constructor".toList, "toString".toList, "toLocaleString".toList, "valueOf".toList,
   "hasOwnProperty".toList, "isPrototypeOf".toList, "propertyIsEnumerable".toList,
   "__defineGetter__".toList, "__defineSetter__".toList, "__lookupGetter__".toList,
   "__lookupSetter__".toList, "__proto__".toList]

/-- The expression `obj[key]` for an object made by `{}` whose own properties are `own`:
an own property wins, then the members of `Object.prototype` are found. -/
def jsGet (own : List (Str × Str)) (key : Str) : JSValue :=
  match own.lookup key with
  | some v => JSValue.string v
  | none => if key ∈ objectPrototypeMembers then JSValue.object key else JSValue.undefined

/-- The statement `obj[key] = value` for a string `value`: it makes an own property, except
for the key `__proto__`, whose setter ignores a string. -/
def jsSet (own : List (Str × Str)) (key : Str) (value : Str) : List (Str × Str) :=
  if key = "__proto__".toList then own else (key, value) :: own

/-- The call of `replace` at line 272: every `-` of the string becomes `_`. -/
def replaceDashes (s : Str) : Str :=
  s.map (fun c => if c = '-' then '_' else c)

/-- The expression `s.toUpperCase()`, on the letters `a` to `z`. An HTTP header name is
made of ASCII characters, for which this is the whole of the JavaScript function. -/
def toUpperCase (s : Str) : Str :=
  s.map Char.toUpper

/-- Lines 266-276, `httpHeaderToScgiHeaderProperty`, with the module variable
`headerPropertyMap` (its own properties) passed in and returned. -/
def httpHeaderToScgiHeaderProperty (headerPropertyMap : List (Str × Str))
    (httpHeaderProperty : Str) : JSValue × List (Str × Str) :=
  let scgiProp := jsGet headerPropertyMap httpHeaderProperty
  if !scgiProp.truthy then
    let computed := "HTTP_".toList ++ toUpperCase (replaceDashes httpHeaderProperty)
    (JSValue.string computed, jsSet headerPropertyMap httpHeaderProperty computed)
  else
    (scgiProp, headerPropertyMap)

/-- The transformation as the specification words it: `HTTP_`, then the header name with
every `-` replaced by `_` and upper-cased. -/
def scgiFieldName (h : Str) : Str :=
  "HTTP_".toList ++ (h.map (fun c => if c = '-' then '_' else c)).map Char.toUpper

/-! ## The header block (`Connection`, `Connection.prototype.handle`) -/

def CONTENT_LENGTH : Str := "CONTENT_LENGTH".toList
def CONTENT_LENGTH_LOWER_CASE : Str := "content-length".toList
def CONTENT_TYPE : Str := "CONTENT_TYPE".toList
def CONTENT_TYPE_LOWER_CASE : Str := "content-type".toList
def GATEWAY_INTERFACE : Str := "GATEWAY_INTERFACE".toList
def PATH_INFO : Str := "PATH_INFO".toList
def QUERY_STRING : Str := "QUERY_STRING".toList
def REMOTE_ADDR : Str := "REMOTE_ADDR".toList
def REQUEST_METHOD : Str := "REQUEST_METHOD".toList
def REQUEST_URI : Str := "REQUEST_URI".toList
def SCGI : Str := "SCGI".toList
def SERVER_PROTOCOL : Str := "SERVER_PROTOCOL".toList
def SERVER_SOFTWARE : Str := "SERVER_SOFTWARE".toList
def GATEWAY_INTERFACE_VALUE : Str := "CGI/1.1".toList
def SCGI_VALUE : Str := "1".toList
def SERVER_PROTOCOL_VALUE : Str := "HTTP/1.1".toList

/-- Line 49: `"Node/" + process.version`; the version string of the runtime is a parameter. -/
def SERVER_SOFTWARE_VALUE (processVersion : Str) : Str := "Node/".toList ++ processVersion

/-- The pairs that the constructor appends to `staticHeaderBuffer`, lines 115-118. -/
def staticHeaderPairs (processVersion : Str) : List (Str × Str) :=
  [(SCGI, SCGI_VALUE),
   (GATEWAY_INTERFACE, GATEWAY_INTERFACE_VALUE),
   (SERVER_PROTOCOL, SERVER_PROTOCOL_VALUE),
   (SERVER_SOFTWARE, SERVER_SOFTWARE_VALUE processVersion)]

/-- Lines 113-118: `staticHeaderBuffer`, a `':'` followed by the static pairs. -/
def staticHeaderBuffer (processVersion : Str) : DynamicBuffer :=
  (staticHeaderPairs processVersion).foldl appendPair (DynamicBuffer.new.append [':'])

/-- The result of `urlparser.parse(_req.url)`, as far as `handle` reads it. `query` is
`none` when the URL has no query. -/
structure ParsedUrl where
  query : Option Str
  pathname : Str
  href : Str
deriving DecidableEq, Repr

/-- The request `_req`, as far as `handle` reads it. `headers` lists the properties of
`_req.headers` in enumeration order, each value already a string; `remoteAddress` is
`_req.connection.remoteAddress`, `none` when it is `undefined`. -/
structure ServerRequest where
  headers : List (Str × Str)
  url : ParsedUrl
  method : Str
  remoteAddress : Option Str
deriving DecidableEq, Repr

/-- Lines 139-145 of `handle`: the pairs appended after the static ones, in order.
`CONTENT_TYPE` and `REMOTE_ADDR` are guarded by `&&`, so they are appended when the value
is a non-empty string. `mountPointLength` is the property `this.mountPointLength`, which
the constructor does not set (`none` is `undefined`). -/
def requestPairs (mountPointLength : Option Int) (req : ServerRequest) : List (Str × Str) :=
  (match req.headers.lookup CONTENT_TYPE_LOWER_CASE with
    | some (c :: cs) => [(CONTENT_TYPE, c :: cs)]
    | _ => [])
  ++ [(QUERY_STRING, orElse req.url.query [])]
  ++ (match req.remoteAddress with
    | some (c :: cs) => [(REMOTE_ADDR, c :: cs)]
    | _ => [])
  ++ [(CONTENT_LENGTH, orElse (req.headers.lookup CONTENT_LENGTH_LOWER_CASE) ['0']),
      (PATH_INFO, jsSlice req.url.pathname mountPointLength),
      (REQUEST_METHOD, req.method),
      (REQUEST_URI, req.url.href)]

/-- Lines 148-151 of `handle`: the loop over the request headers. Each name goes through
`httpHeaderToScgiHeaderProperty`, which updates `headerPropertyMap`. When the name comes
back as something that is not a string, `append` is called outside of what the embedding
of `DynamicBuffer` covers, and the result is `none`. -/
def httpHeaderPairs (headerPropertyMap : List (Str × Str)) :
    List (Str × Str) → Option (List (Str × Str) × List (Str × Str))
  | [] => some ([], headerPropertyMap)
  | (httpProperty, value) :: rest =>
    match httpHeaderToScgiHeaderProperty headerPropertyMap httpProperty with
    | (JSValue.string name, map1) =>
      match httpHeaderPairs map1 rest with
      | some (pairs, map2) => some ((name, value) :: pairs, map2)
      | none => none
    | _ => none

/-- The name/value pairs that the constructor and `handle` append for a request, in order:
lines 115-118, 139-145 and 148-151. -/
def handlePairs (processVersion : Str) (mountPointLength : Option Int)
    (headerPropertyMap : List (Str × Str)) (req : ServerRequest) : Option (List (Str × Str)) :=
  match httpHeaderPairs headerPropertyMap req.headers with
  | some (pairs, _) =>
    some (staticHeaderPairs processVersion ++ requestPairs mountPointLength req ++ pairs)
  | none => none

/-- Lines 137-154 of `handle`: the buffer stored in `_req.headersBuffer`, and the new
content of `headerPropertyMap`. The static buffer is cloned, the pairs are appended one
after the other, and a `','` ends the block. -/
def handleHeadersBuffer (processVersion : Str) (mountPointLength : Option Int)
    (headerPropertyMap : List (Str × Str)) (req : ServerRequest) :
    Option (DynamicBuffer × List (Str × Str)) :=
  let b1 := (requestPairs mountPointLength req).foldl appendPair
    (staticHeaderBuffer processVersion).clone
  match httpHeaderPairs headerPropertyMap req.headers with
  | some (pairs, map1) => some ((pairs.foldl appendPair b1).append [','], map1)
  | none => none

/-! ## The request body and the transport (`cacheDataOnReq`, `onServerConnect`) -/

/-- A body chunk: the bytes of a `Buffer`, which is what a request emits with `'data'`. -/
structure Chunk where
  bytes : List Nat
deriving DecidableEq, Repr

/-- The truth value of a chunk in the loop condition of line 247: a `Buffer` is an object,
and an object is truthy whatever its length. -/
def Chunk.truthy (_c : Chunk) : Bool := true

/-- A listener of the `'data'` event of a request: the `pushToCache` of line 259, or the
one that `_req.pipe(server)` installs (line 252), which writes the chunk to the transport. -/
inductive DataListener where
  | pushToCache
  | pipeToServer
deriving DecidableEq, Repr

/-- The request and its transport, as far as the body is concerned: `_req.headersBuffer`,
`_req.cachedData`, the `'data'` listeners of the request, and the arguments of the
`write` calls made on the transport, in call order. -/
structure Transfer where
  headersBuffer : DynamicBuffer
  cachedData : List Chunk
  dataListeners : List DataListener
  written : List (List Nat)
deriving DecidableEq, Repr

/-- Lines 255-260, `cacheDataOnReq`. -/
def cacheDataOnReq (t : Transfer) : Transfer :=
  { t with cachedData := [], dataListeners := t.dataListeners ++ [DataListener.pushToCache] }

/-- The state in which `handle` leaves a request whose header block is `hb` (lines 137-157):
no transport has been written to, and `cacheDataOnReq` has run. -/
def Transfer.start (hb : DynamicBuffer) : Transfer :=
  cacheDataOnReq { headersBuffer := hb, cachedData := [], dataListeners := [], written := [] }

/-- The request emits `'data'` with a chunk: every listener is called with it. -/
def emitData (t : Transfer) (chunk : Chunk) : Transfer :=
  t.dataListeners.foldl (fun st l =>
    match l with
    | DataListener.pushToCache => { st with cachedData := st.cachedData ++ [chunk] }
    | DataListener.pipeToServer => { st with written := st.written ++ [chunk.bytes] }) t

/-- The loop of lines 247-250: it writes the cached chunks in index order, and stops at the
end of the array or at the first falsy element. -/
def writeCachedData : List Chunk → List (List Nat)
  | [] => []
  | dataChunk :: rest =>
    if dataChunk.truthy then dataChunk.bytes :: writeCachedData rest else []

/-- Lines 237-253, `onServerConnect`: the transport emits `'connect'`. -/
def onServerConnect (t : Transfer) : Transfer :=
  let headerLength : Int := (t.headersBuffer.length : Int) - 2
  { t with
    dataListeners := [DataListener.pipeToServer]
    written := t.written ++ [utf8 (numberToString headerLength), t.headersBuffer.getBuffer]
      ++ writeCachedData t.cachedData }

/-- What happens to a request and its transport. -/
inductive TransferEvent where
  | data (chunk : Chunk)
  | connect
deriving DecidableEq, Repr

/-- One event. -/
def Transfer.step (t : Transfer) : TransferEvent → Transfer
  | TransferEvent.data chunk => emitData t chunk
  | TransferEvent.connect => onServerConnect t

/-- A sequence of events, from left to right. -/
def Transfer.run (t : Transfer) (evs : List TransferEvent) : Transfer :=
  evs.foldl Transfer.step t

/-! ## The response headers (`onCgiHeader`) -/

/-- One element of the header list that the response parser emits: `{key, value}`. -/
structure Header where
  key : Str
  value : Str
deriving DecidableEq, Repr

/-- The argument `_headers` of the `'headers'` event: the list of pairs in backend order,
and the property `status` read at line 231 (`none` when it is `undefined`). -/
structure Headers where
  items : List Header
  status : Option Str
deriving DecidableEq, Repr

/-- The calls that `onCgiHeader` makes on the response `_res` and on the parser. -/
inductive ResponseCall where
  /-- The call `_res.setHeader(name, value)` with a string value (line 223). -/
  | setHeader (name : Str) (value : Str)
  /-- The call `_res.setHeader(name, values)` with an array value (line 228). -/
  | setHeaderList (name : Str) (values : List Str)
  /-- The call `_res.writeHead(statusCode)` (line 231). -/
  | writeHead (statusCode : Int)
  /-- The call `this.pipe(_res)` (line 234). -/
  | pipe
deriving DecidableEq, Repr

/-- The string `'Status'` of line 211. -/
def keyStatus : Str := "Status".toList

/-- The string `'Set-Cookie'` of lines 217 and 228. -/
def keySetCookie : Str := "Set-Cookie".toList

/-- The loop of lines 207-224, from the state `(calls, setCookies)`. An element of the
list is an object, hence truthy, so the loop ends at the end of the list. -/
def cgiHeaderLoop : List Header → List ResponseCall × List Str → List ResponseCall × List Str
  | [], acc => acc
  | header :: rest, (calls, setCookies) =>
    if header.key = keyStatus then
      cgiHeaderLoop rest (calls, setCookies)
    else if header.key = keySetCookie then
      cgiHeaderLoop rest (calls, setCookies ++ [header.value])
    else
      cgiHeaderLoop rest (calls ++ [ResponseCall.setHeader header.key header.value], setCookies)

/-- The white space that `parseInt` skips: the `StrWhiteSpaceChar` of ECMAScript. -/
def isStrWhiteSpaceChar (c : Char) : Bool :=
  c.toNat ∈ [0x09, 0x0A, 0x0B, 0x0C, 0x0D, 0x20, 0xA0, 0x1680, 0x2000, 0x2001, 0x2002,
    0x2003, 0x2004, 0x2005, 0x2006, 0x2007, 0x2008, 0x2009, 0x200A, 0x2028, 0x2029, 0x202F,
    0x205F, 0x3000, 0xFEFF]

/-- The value of a character as a digit in the given radix, if it is one. -/
def digitValue (radix : Nat) (c : Char) : Option Nat :=
  let n := c.toNat
  let v := if 48 ≤ n ∧ n ≤ 57 then n - 48
    else if 97 ≤ n ∧ n ≤ 122 then n - 87
    else if 65 ≤ n ∧ n ≤ 90 then n - 55
    else radix
  if v < radix then some v else none

/-- The digits at the start of a string, most significant first. -/
def leadingDigits (radix : Nat) : Str → List Nat
  | [] => []
  | c :: cs =>
    match digitValue radix c with
    | some v => v :: leadingDigits radix cs
    | none => []

/-- The number that a list of digits, most significant first, denotes. -/
def digitsToNat (radix : Nat) (ds : List Nat) : Nat :=
  ds.foldl (fun acc d => radix * acc + d) 0

/-- The function `parseInt(x)` of ECMAScript 5 with no radix argument, for a string or
`undefined` `x`; `none` is `NaN`. White space is skipped, a sign is read, `0x` or `0X`
selects radix 16, and the digits that follow give the value; `undefined` reads as the string
`undefined`, which has no digit. The result is the mathematical integer. -/
def parseInt (x : Option Str) : Option Int :=
  match x with
  | none => none
  | some s =>
    let s1 := s.dropWhile isStrWhiteSpaceChar
    let negative := s1.head? = some '-'
    let s2 := if s1.head? = some '-' ∨ s1.head? = some '+' then s1.drop 1 else s1
    let hex := s2.take 2 = ['0', 'x'] ∨ s2.take 2 = ['0', 'X']
    let radix := if hex then 16 else 10
    let s3 := if hex then s2.drop 2 else s2
    let ds := leadingDigits radix s3
    if ds = [] then none
    else if negative then some (- (digitsToNat radix ds : Int))
    else some (digitsToNat radix ds : Int)

/-- The expression `parseInt(_headers.status) || 200`: `NaN` and `0` are falsy. -/
def statusCode (status : Option Str) : Int :=
  match parseInt status with
  | none => 200
  | some n => if n = 0 then 200 else n

/-- Lines 204-235, `onCgiHeader`: the calls it makes, in order. -/
def onCgiHeader (headers : Headers) : List ResponseCall :=
  let (calls, setCookies) := cgiHeaderLoop headers.items ([], [])
  calls
    ++ (if setCookies.length ≠ 0 then [ResponseCall.setHeaderList keySetCookie setCookies]
        else [])
    ++ [ResponseCall.writeHead (statusCode headers.status), ResponseCall.pipe]

/-! ## A reader of the SCGI header block

The reader below follows the wire format of the specification: a decimal length, a `':'`,
that many bytes holding NUL-terminated names and values, and a `','`. -/

/-- Read decimal digits; the result is the number read so far and the remaining bytes. -/
def readDigits : List Nat → Nat → Nat × List Nat
  | [], acc => (acc, [])
  | b :: bs, acc =>
    if 48 ≤ b ∧ b ≤ 57 then readDigits bs (10 * acc + (b - 48)) else (acc, b :: bs)

/-- Split bytes into NUL-terminated strings; `none` when the last string has no NUL. -/
def splitNul : List Nat → List Nat → Option (List (List Nat))
  | [], [] => some []
  | [], _ :: _ => none
  | b :: bs, cur =>
    if b = 0 then
      match splitNul bs [] with
      | some strs => some (cur :: strs)
      | none => none
    else splitNul bs (cur ++ [b])

/-- Group strings two by two into names and values; `none` when their number is odd. -/
def pairUp : List (List Nat) → Option (List (List Nat × List Nat))
  | [] => some []
  | [_] => none
  | k :: v :: rest =>
    match pairUp rest with
    | some ps => some ((k, v) :: ps)
    | none => none

/-- A reader of the header block: the pairs it holds and the bytes after the `','`. -/
def scgiReadHeader (bs : List Nat) : Option (List (List Nat × List Nat) × List Nat) :=
  match bs with
  | [] => none
  | b :: _ =>
    if 48 ≤ b ∧ b ≤ 57 then
      match readDigits bs 0 with
      | (n, 58 :: rest) =>
        if n ≤ rest.length then
          match rest.drop n with
          | 44 :: body =>
            match splitNul (rest.take n) [] with
            | some strs =>
              match pairUp strs with
              | some pairs => some (pairs, body)
              | none => none
            | none => none
          | _ => none
        else none
      | _ => none
    else none

/-- The bytes of the pairs as they stand in the header block: each name and each value
followed by one NUL byte. -/
def encodePairs (pairs : List (Str × Str)) : List Nat :=
  pairs.flatMap (fun kv => utf8 kv.1 ++ [0] ++ utf8 kv.2 ++ [0])

/-- The values of the pairs whose key is `Set-Cookie`, in backend order. -/
def setCookieValues (items : List Header) : List Str :=
  (items.filter (fun h => h.key = keySetCookie)).map (fun h => h.value)

/-- The name with which a call sets a response header, if it sets one. -/
def ResponseCall.headerName : ResponseCall → Option Str
  | ResponseCall.setHeader name _ => some name
  | ResponseCall.setHeaderList name _ => some name
  | _ => none

/-! ## Definitions used in the statements and proofs -/

/-- The number that a string of decimal digits denotes. -/
def decVal (l : Str) : Nat :=
  l.foldl (fun a c => 10 * a + (c.toNat - 48)) 0

/-- The string is a decimal numeral of `n`: not empty, made of the digits `0` to `9`,
with value `n`. -/
def IsNumeral (l : Str) (n : Nat) : Prop :=
  l ≠ [] ∧ (∀ c ∈ l, 48 ≤ c.toNat ∧ c.toNat ≤ 57) ∧ decVal l = n

/-- The string holds no NUL character. -/
def noNul (s : Str) : Prop :=
  ∀ c ∈ s, c.toNat ≠ 0

instance (s : Str) : Decidable (noNul s) := by
  unfold noNul
  infer_instance

/-- A request used as an example: `GET /app/list?x=1` with two headers. -/
def sampleRequest : ServerRequest :=
  { headers := [("host".toList, "example.org".toList), ("accept-language".toList, "de".toList)]
    url := { query := some "x=1".toList, pathname := "/app/list".toList,
             href := "/app/list?x=1".toList }
    method := "GET".toList
    remoteAddress := some "10.0.0.7".toList }

/-- A request one of whose header values holds NUL characters: `x-a` has the value
`a`, NUL, `B`, NUL, `c`. -/
def nulRequest : ServerRequest :=
  { headers := [("x-a".toList, ['a', Char.ofNat 0, 'B', Char.ofNat 0, 'c'])]
    url := { query := none, pathname := "/".toList, href := "/".toList }
    method := "GET".toList
    remoteAddress := none }

/-- The content of `headerPropertyMap` is sound: every own property holds the SCGI name of
its key. -/
def CacheInv (headerPropertyMap : List (Str × Str)) : Prop :=
  ∀ k v, (k, v) ∈ headerPropertyMap → v = scgiFieldName k

/-- The invariant that ties the log to the listeners: the release step of a transport is in
the log once, with the connector of the transport, when its `'end'` listener is gone, and
not at all otherwise. -/
def LogInv (s : Connection) : Prop :=
  ∀ sid, releasedConnectors sid s.log =
    match s.servers[sid]? with
    | some sv => if sv.endListener then [] else [sv.connector]
    | none => []

/-- The transport `sid` exists, serves `req` with the connector `c`, and its `'end'`
listener is gone exactly when `b` holds. -/
def Tracked (sid req : Nat) (c : Connector) (b : Bool) (s : Connection) : Prop :=
  ∃ sv, s.servers[sid]? = some sv ∧ sv.req = req ∧ sv.connector = c ∧ sv.endListener = !b

/-- The queue invariant: the requests started from the queue, in start order, followed by the
requests still waiting, are the requests that were queued, in arrival order. -/
def QueueInv (s : Connection) : Prop :=
  dequeuedRequests s.log ++ s.waitingRequests = queuedRequests s.log

/-- The pool invariant: the idle connectors together with the connectors of the active
Exchanges are the connectors `cs` the pool was built from, each as often as in `cs`. -/
def PoolInv (cs : List Connector) (s : Connection) : Prop :=
  (idleConnectors s ++ activeConnectors s).Perm cs

/-- The pairs that are set as they are: the key is neither `Status` nor `Set-Cookie`. -/
def plainHeaders (items : List Header) : List Header :=
  items.filter (fun h => h.key ≠ keyStatus ∧ h.key ≠ keySetCookie)

/-! ## The constructor (`Connection`, `getConnectorFromConnectionSpec`) -/

/-- A value given as a connection specification, directly or by the generator: `null` or
`undefined`, an object with the properties of a `ConnectionSpec`, or an array of such
objects. -/
inductive SpecValue where
  | null
  | object (spec : ConnectionSpec)
  | array (items : List ConnectionSpec)
deriving DecidableEq, Repr

/-- An error thrown by the code. Line 304 is `throw new Exception(...)`; no `Exception` is
defined in JavaScript or in the file, so evaluating `new Exception` throws a
`ReferenceError` for that name. -/
inductive JSError where
  | referenceError (name : Str)
deriving DecidableEq, Repr

/-- The condition `_spec.port && _spec.host` of line 286: both are present and truthy, a
port other than 0 and a host other than the empty string. -/
def ConnectionSpec.portAndHost (spec : ConnectionSpec) : Bool :=
  (match spec.port with
    | some p => p != 0
    | none => false)
  && (match spec.host with
    | some (_ :: _) => true
    | _ => false)

/-- The condition `_spec.socket` of line 294: present and not the empty string. -/
def ConnectionSpec.socketPath (spec : ConnectionSpec) : Bool :=
  match spec.socket with
  | some (_ :: _) => true
  | _ => false

/-- The specifications that `getConnectorFromConnectionSpec` accepts. -/
def ConnectionSpec.valid (spec : ConnectionSpec) : Bool :=
  spec.portAndHost || spec.socketPath

/-- Lines 281-309, `getConnectorFromConnectionSpec`: `null` for a falsy specification, a
connector for one with port and host or with a socket, and a throw otherwise. An array is
truthy and has none of the properties `port`, `host` and `socket`. -/
def getConnectorFromConnectionSpec (spec : SpecValue) (specCallNr : Nat) :
    Except JSError (Option Connector) :=
  match spec with
  | SpecValue.null => Except.ok none
  | SpecValue.object o =>
    if o.portAndHost then
      Except.ok (some { id := specCallNr, specification := o })
    else if o.socketPath then
      Except.ok (some { id := specCallNr, specification := o })
    else
      Except.error (JSError.referenceError "Exception".toList)
  | SpecValue.array _ => Except.error (JSError.referenceError "Exception".toList)

/-- How a piece of code that may loop ends: with a result, with a throw, or not within the
number of iterations that was granted. -/
inductive Outcome (α : Type) where
  | done (a : α)
  | thrown (e : JSError)
  | running
deriving DecidableEq, Repr

/-- The result, when there is one. -/
def Outcome.result {α : Type} : Outcome α → Option α
  | Outcome.done a => some a
  | _ => none

/-- The argument `_connection__function` of the constructor: a function from the call
number to a specification value, or a value that is not a function. -/
inductive ConstructorArg where
  | function (f : Nat → SpecValue)
  | value (v : SpecValue)

/-- The `do ... while (connector)` loop of lines 96-104, for at most `fuel` iterations, from
the state `specCallNr`, `idleServerConnectors`; `calls` records the arguments with which the
generator has been called. -/
def generatorLoop (f : Nat → SpecValue) :
    Nat → Nat → List (Option Connector) → List Nat →
      Outcome (List (Option Connector) × List Nat)
  | 0, _, _, _ => Outcome.running
  | fuel + 1, specCallNr, idle, calls =>
    match getConnectorFromConnectionSpec (f specCallNr) specCallNr with
    | Except.error e => Outcome.thrown e
    | Except.ok (some connector) =>
      generatorLoop f fuel (specCallNr + 1) (idle ++ [some connector]) (calls ++ [specCallNr])
    | Except.ok none => Outcome.done (idle, calls ++ [specCallNr])

/-- The object that the constructor builds: the queues (with the transports and the record
of calls of the embedding), `staticHeaderBuffer`, the property `mountPointLength` that
`handle` reads at line 143, and the arguments with which the generator was called. -/
structure ConnectionObject where
  pool : Connection
  staticHeaderBuffer : DynamicBuffer
  mountPointLength : Option Int
  specCalls : List Nat
deriving DecidableEq, Repr

/-- Lines 79-121, the constructor `Connection`. The queues start empty; a function is called
with 1, 2, ... as long as it returns something, and anything else goes through
`getConnectorFromConnectionSpec` once, its result being pushed as it is (line 108). No
statement assigns `mountPointLength`, which stays `undefined`. -/
def newConnection (processVersion : Str) (arg : ConstructorArg) (fuel : Nat) :
    Outcome ConnectionObject :=
  let seeded : Outcome (List (Option Connector) × List Nat) :=
    match arg with
    | ConstructorArg.function f => generatorLoop f fuel 1 [] []
    | ConstructorArg.value v =>
      match getConnectorFromConnectionSpec v 1 with
      | Except.ok connector => Outcome.done ([connector], [])
      | Except.error e => Outcome.thrown e
  match seeded with
  | Outcome.done (idle, calls) =>
    Outcome.done
      { pool := Connection.ofConnectors idle
        staticHeaderBuffer := staticHeaderBuffer processVersion
        mountPointLength := none
        specCalls := calls }
  | Outcome.thrown e => Outcome.thrown e
  | Outcome.running => Outcome.running

/-- Lines 137-154 of `handle` on a constructed object: as `handleHeadersBuffer`, with
`this.staticHeaderBuffer` and `this.mountPointLength` read from the object. -/
def ConnectionObject.handleHeadersBuffer (conn : ConnectionObject)
    (headerPropertyMap : List (Str × Str)) (req : ServerRequest) :
    Option (DynamicBuffer × List (Str × Str)) :=
  let b1 := (requestPairs conn.mountPointLength req).foldl appendPair
    conn.staticHeaderBuffer.clone
  match httpHeaderPairs headerPropertyMap req.headers with
  | some (pairs, map1) => some ((pairs.foldl appendPair b1).append [','], map1)
  | none => none

/-! ## Transport errors -/

/-- What can happen to a `Connection` and its transports: a step of `Op`, or a transport
that emits `'error'` or `'close'` (a failed connect emits both). `handleRequest` registers
listeners for `'connect'` and `'end'` only, so no code of the file runs for these two. -/
inductive TransportEvent where
  | op (o : Op)
  | serverError (server : Nat)
  | serverClose (server : Nat)
deriving DecidableEq, Repr

/-- Whether the event is a termination trigger of the Exchange on transport `sid` serving
`req`. -/
def TransportEvent.triggers (sid req : Nat) : TransportEvent → Bool
  | TransportEvent.op o => o.triggers sid req
  | _ => false

/-! ## Further definitions used in the statements and proofs -/

/-- What the log holds about the end of one Exchange: the `'end'` event that the
`Connection` emitted, with its two arguments, and the release of the connector. -/
inductive Mark where
  | emitted (req : Nat) (id : Nat)
  | released (connector : Connector)
deriving DecidableEq, Repr

/-- The marks of the transport `sid` in a log, in order: line 183, then line 187 or 191. -/
def marks (sid : Nat) (log : List Event) : List Mark :=
  log.filterMap (fun e =>
    match e with
    | Event.emitEnd i r id => if i = sid then some (Mark.emitted r id) else none
    | Event.handOver i c _ => if i = sid then some (Mark.released c) else none
    | Event.idle i c => if i = sid then some (Mark.released c) else none
    | _ => none)

/-- The invariant that ties the marks to the listeners. -/
def MarkInv (s : Connection) : Prop :=
  ∀ sid, marks sid s.log =
    match s.servers[sid]? with
    | some sv =>
      if sv.endListener then []
      else [Mark.emitted sv.req sv.connector.id, Mark.released sv.connector]
    | none => []

/-- The connectors with the ids `n`, `n + 1`, ... for the specifications of a list. -/
def connectorsFrom : Nat → List ConnectionSpec → List (Option Connector)
  | _, [] => []
  | n, spec :: rest => some { id := n, specification := spec } :: connectorsFrom (n + 1) rest

/-- The invariant behind work conservation: either the idle list is the single `null` that
a `null` specification leaves there and nothing has happened yet, or the idle list holds
connectors only and one of the two queues is empty. -/
def WorkInv (s : Connection) : Prop :=
  (s.idleServerConnectors = [none] ∧ s.servers = [] ∧ s.waitingRequests = []) ∨
  ((∀ x ∈ s.idleServerConnectors, x ≠ none) ∧
    (s.waitingRequests = [] ∨ s.idleServerConnectors = []))

/-! ## Lemmas on the pool and the queue -/

theorem releasedConnectors_append (sid : Nat) (l₁ l₂ : List Event) :
    releasedConnectors sid (l₁ ++ l₂) = releasedConnectors sid l₁ ++ releasedConnectors sid l₂ := by
  simp [releasedConnectors, List.filterMap_append]

theorem logInv_ofConnectors (cs : List (Option Connector)) :
    LogInv (Connection.ofConnectors cs) := by
  intro sid
  simp [Connection.ofConnectors, releasedConnectors]

theorem logInv_handleRequest {s : Connection} (h : LogInv s) (req : Nat) (c : Connector) :
    LogInv (handleRequest s req c) := by
  intro sid
  have hs := h sid
  simp only [handleRequest, releasedConnectors_append]
  rcases Nat.lt_trichotomy sid s.servers.length with hlt | heq | hgt
  · rw [List.getElem?_append_left hlt, hs]
    simp [releasedConnectors]
  · subst heq
    rw [List.getElem?_length] at hs
    rw [List.getElem?_concat_length, hs]
    simp [releasedConnectors]
  · rw [List.getElem?_eq_none (by omega)] at hs
    rw [List.getElem?_eq_none (by simp; omega), hs]
    simp [releasedConnectors]

theorem logInv_handle {s : Connection} (h : LogInv s) (req : Nat) : LogInv (handle s req) := by
  unfold handle
  split
  · exact logInv_handleRequest (s := { s with idleServerConnectors := _ }) h req _
  · intro sid
    have hs := h sid
    simp only [releasedConnectors_append, hs]
    simp [releasedConnectors]
  · intro sid
    have hs := h sid
    simp only [releasedConnectors_append, hs]
    simp [releasedConnectors]

theorem logInv_emitEnd {s : Connection} (h : LogInv s) (i : Nat) (flag : Bool) :
    LogInv (emitEnd s i flag) := by
  unfold emitEnd
  split
  · exact h
  · rename_i sv hsv
    split
    · rename_i hl
      have hi : i < s.servers.length := by
        rcases List.getElem?_eq_some.1 hsv with ⟨hlt, _⟩
        exact hlt
      -- the log after the cleanup and the emit, before the release step
      have key : ∀ sid, releasedConnectors sid
            (s.log ++ (if flag then [] else [Event.cleanup i])
              ++ [Event.emitEnd i sv.req sv.connector.id]) =
          if sid = i then [] else
            match (s.servers.set i { sv with endListener := false })[sid]? with
            | some sv => if sv.endListener then [] else [sv.connector]
            | none => [] := by
        intro sid
        have hs := h sid
        by_cases hsi : sid = i
        · subst hsi
          rw [hsv] at hs
          simp only [releasedConnectors_append, hs, hl]
          cases flag <;> simp [releasedConnectors]
        · rw [List.getElem?_set_ne (Ne.symm hsi)]
          simp only [releasedConnectors_append, hs, if_neg hsi]
          cases flag <;> simp [releasedConnectors]
      unfold endHandler
      simp only []
      split
      · rename_i w ws hw
        apply logInv_handleRequest
        intro sid
        have hk := key sid
        simp only [releasedConnectors_append] at hk ⊢
        by_cases hsi : sid = i
        · subst hsi
          rw [List.getElem?_set_self hi]
          simp only [if_pos rfl] at hk
          rw [hk]
          simp [releasedConnectors]
        · simp only [if_neg hsi] at hk
          rw [← hk]
          simp [releasedConnectors, Ne.symm hsi]
      · intro sid
        have hk := key sid
        simp only [releasedConnectors_append] at hk ⊢
        by_cases hsi : sid = i
        · subst hsi
          rw [List.getElem?_set_self hi]
          simp only [if_pos rfl] at hk
          rw [hk]
          simp [releasedConnectors]
        · simp only [if_neg hsi] at hk
          rw [← hk]
          simp [releasedConnectors, Ne.symm hsi]
    · exact h

theorem logInv_foldl_emitEnd (l : List Nat) (flag : Bool) :
    ∀ {s : Connection}, LogInv s → LogInv (l.foldl (fun st sid => emitEnd st sid flag) s) := by
  induction l with
  | nil => intro s h; exact h
  | cons a l ih => intro s h; exact ih (logInv_emitEnd h a flag)

theorem logInv_step {s : Connection} (h : LogInv s) (op : Op) : LogInv (step s op) := by
  cases op with
  | handle req => exact logInv_handle h req
  | serverEnd sid => exact logInv_emitEnd h sid false
  | reqClose req => exact logInv_foldl_emitEnd _ true h

theorem logInv_run (ops : List Op) : ∀ {s : Connection}, LogInv s → LogInv (run s ops) := by
  induction ops with
  | nil => intro s h; exact h
  | cons a l ih => intro s h; exact ih (logInv_step h a)

theorem tracked_handleRequest {sid req : Nat} {c : Connector} {b : Bool} {s : Connection}
    (h : Tracked sid req c b s) (r : Nat) (d : Connector) :
    Tracked sid req c b (handleRequest s r d) := by
  obtain ⟨sv, hsv, hr, hc, hl⟩ := h
  refine ⟨sv, ?_, hr, hc, hl⟩
  have hlt : sid < s.servers.length := (List.getElem?_eq_some.1 hsv).1
  simp only [handleRequest]
  rw [List.getElem?_append_left hlt, hsv]

theorem tracked_handle {sid req : Nat} {c : Connector} {b : Bool} {s : Connection}
    (h : Tracked sid req c b s) (r : Nat) : Tracked sid req c b (handle s r) := by
  unfold handle
  split
  · exact tracked_handleRequest (s := { s with idleServerConnectors := _ }) h r _
  · exact h
  · exact h

theorem tracked_emitEnd {sid req : Nat} {c : Connector} {b : Bool} {s : Connection}
    (h : Tracked sid req c b s) (i : Nat) (flag : Bool) :
    Tracked sid req c (b || i == sid) (emitEnd s i flag) := by
  obtain ⟨sv, hsv, hr, hc, hl⟩ := h
  have hlt : sid < s.servers.length := (List.getElem?_eq_some.1 hsv).1
  unfold emitEnd
  split
  · rename_i hnone
    have hne : ¬ i = sid := by
      intro e
      rw [e, hsv] at hnone
      exact Option.noConfusion hnone
    exact ⟨sv, hsv, hr, hc, by simp [hne, hl]⟩
  · rename_i svi hsvi
    split
    · rename_i hli
      -- the entry of `sid` after the listener of `i` is removed
      have hset : Tracked sid req c (b || i == sid)
          { s with servers := s.servers.set i { svi with endListener := false } } := by
        by_cases e : i = sid
        · subst e
          rw [hsv] at hsvi
          cases hsvi
          exact ⟨{ sv with endListener := false }, by simp [List.getElem?_set_self hlt], hr,
            hc, by simp⟩
        · exact ⟨sv, by simp [List.getElem?_set_ne e, hsv], hr, hc, by simp [e, hl]⟩
      unfold endHandler
      simp only []
      split
      · exact tracked_handleRequest (s := { s with servers := _, waitingRequests := _, log := _ })
          hset _ _
      · exact hset
    · rename_i hli
      by_cases e : i = sid
      · subst e
        rw [hsv] at hsvi
        cases hsvi
        refine ⟨sv, hsv, hr, hc, ?_⟩
        cases hb : b
        · rw [hb] at hl
          simp [hl] at hli
        · simpa [hb] using hl
      · exact ⟨sv, hsv, hr, hc, by simp [e, hl]⟩

theorem tracked_foldl_emitEnd {sid req : Nat} {c : Connector} (flag : Bool) (l : List Nat) :
    ∀ {b : Bool} {s : Connection}, Tracked sid req c b s →
      Tracked sid req c (b || l.contains sid) (l.foldl (fun st i => emitEnd st i flag) s) := by
  induction l with
  | nil => intro b s h; simpa using h
  | cons a l ih =>
    intro b s h
    have h1 := ih (tracked_emitEnd h a flag)
    have e : (b || a == sid || l.contains sid) = (b || (a :: l).contains sid) := by
      by_cases ha : a = sid
      · simp [ha]
      · have ha2 : ¬ sid = a := fun x => ha x.symm
        have ha3 : (a == sid) = false := by simpa using ha
        simp [ha3, ha2]
    rw [e] at h1
    exact h1

theorem contains_closeTargets {sid req : Nat} {c : Connector} {b : Bool} {s : Connection}
    (h : Tracked sid req c b s) (r : Nat) : (closeTargets s r).contains sid = (r == req) := by
  obtain ⟨sv, hsv, hr, _, _⟩ := h
  have hlt : sid < s.servers.length := (List.getElem?_eq_some.1 hsv).1
  by_cases e : r = req
  · subst e
    have : sid ∈ closeTargets s r := by
      simp only [closeTargets, List.mem_filter, List.mem_range]
      exact ⟨hlt, by simp [hsv, hr]⟩
    simpa using this
  · have : sid ∉ closeTargets s r := by
      simp only [closeTargets, List.mem_filter, List.mem_range]
      rintro ⟨_, h2⟩
      rw [hsv] at h2
      simp only [beq_iff_eq] at h2
      exact e ((h2.symm.trans hr).symm ▸ rfl)
    have e2 : (r == req) = false := by simpa using e
    rw [e2]
    simpa using this

theorem tracked_step {sid req : Nat} {c : Connector} {b : Bool} {s : Connection}
    (h : Tracked sid req c b s) (op : Op) :
    Tracked sid req c (b || op.triggers sid req) (step s op) := by
  cases op with
  | handle r => simpa [Op.triggers, step] using tracked_handle h r
  | serverEnd i => exact tracked_emitEnd h i false
  | reqClose r =>
    have h1 := tracked_foldl_emitEnd true (closeTargets s r) h
    rw [contains_closeTargets h r] at h1
    exact h1

theorem tracked_run {sid req : Nat} {c : Connector} (ops : List Op) :
    ∀ {b : Bool} {s : Connection}, Tracked sid req c b s →
      Tracked sid req c (b || ops.any (Op.triggers sid req)) (run s ops) := by
  induction ops with
  | nil => intro b s h; simpa [run] using h
  | cons a l ih =>
    intro b s h
    have h1 := ih (tracked_step h a)
    simpa [run, Bool.or_assoc] using h1

theorem run_append (s : Connection) (pre post : List Op) :
    run s (pre ++ post) = run (run s pre) post := by
  simp [run, List.foldl_append]

/-! ## C1 -/

/-- C1. Take any Exchange: a transport `sid` that `handleRequest` created for the request
`sv.req` with the connector `sv.connector`, in a state reached from a fresh `Connection` by
any steps `pre`. After any further steps `post` (backend `'end'` events, client `'close'`
events and submissions, of this Exchange and of others, in any order and any number), the
release steps executed for `sid` (line 187 or line 191) are exactly one, releasing
`sv.connector`, when the Exchange was already released or `post` holds a termination
trigger of it, and none otherwise: no trigger sequence releases twice, and every non-empty
one releases. -/
theorem release_exactly_once (cs : List (Option Connector)) (pre post : List Op)
    (sid : Nat) (sv : Server)
    (h : (run (Connection.ofConnectors cs) pre).servers[sid]? = some sv) :
    releasedConnectors sid (run (Connection.ofConnectors cs) (pre ++ post)).log =
      if !sv.endListener || post.any (Op.triggers sid sv.req) then [sv.connector] else [] := by
  have ht : Tracked sid sv.req sv.connector (!sv.endListener)
      (run (Connection.ofConnectors cs) pre) := ⟨sv, h, rfl, rfl, by simp⟩
  obtain ⟨sv2, hsv2, _, hc2, hl2⟩ := tracked_run post ht
  have hinv := logInv_run (pre ++ post) (logInv_ofConnectors cs) sid
  rw [run_append, hsv2] at hinv
  rw [run_append, hinv]
  simp only [hl2, hc2]
  cases (!sv.endListener || post.any (Op.triggers sid sv.req)) <;> simp

/-- Witness of C1: one connector, one request; the client closes, then the backend ends,
then the client closes again: one release. -/
theorem release_exactly_once_witness :
    (run (Connection.ofConnectors [some ⟨1, ⟨none, none, some ['s']⟩⟩]) [Op.handle 7]).servers[0]?
        = some ⟨7, ⟨1, ⟨none, none, some ['s']⟩⟩, true⟩ ∧
      releasedConnectors 0 (run (Connection.ofConnectors [some ⟨1, ⟨none, none, some ['s']⟩⟩])
        ([Op.handle 7] ++ [Op.reqClose 7, Op.serverEnd 0, Op.reqClose 7])).log
        = [⟨1, ⟨none, none, some ['s']⟩⟩] :=
  ⟨by decide,
   (release_exactly_once [some ⟨1, ⟨none, none, some ['s']⟩⟩] [Op.handle 7]
      [Op.reqClose 7, Op.serverEnd 0, Op.reqClose 7] 0 ⟨7, ⟨1, ⟨none, none, some ['s']⟩⟩, true⟩
      (by decide)).trans (by decide)⟩

/-! ## C3 -/

theorem queueInv_handleRequest {s : Connection} (h : QueueInv s) (r : Nat) (c : Connector) :
    QueueInv (handleRequest s r c) := by
  unfold QueueInv at h ⊢
  simp [handleRequest, dequeuedRequests, queuedRequests, List.filterMap_append] at h ⊢
  exact h

theorem queueInv_handle {s : Connection} (h : QueueInv s) (r : Nat) : QueueInv (handle s r) := by
  unfold handle
  split
  · exact queueInv_handleRequest (s := { s with idleServerConnectors := _ }) h r _
  · unfold QueueInv at h ⊢
    simp [dequeuedRequests, queuedRequests, List.filterMap_append] at h ⊢
    rw [← h, List.append_assoc]
  · unfold QueueInv at h ⊢
    simp [dequeuedRequests, queuedRequests, List.filterMap_append] at h ⊢
    rw [← h, List.append_assoc]

theorem queueInv_emitEnd {s : Connection} (h : QueueInv s) (i : Nat) (flag : Bool) :
    QueueInv (emitEnd s i flag) := by
  unfold emitEnd
  split
  · exact h
  · split
    · unfold endHandler
      simp only []
      split
      · rename_i w ws hw
        apply queueInv_handleRequest
        unfold QueueInv at h ⊢
        rw [hw] at h
        cases flag <;>
          simp [dequeuedRequests, queuedRequests, List.filterMap_append] at h ⊢ <;>
          exact h
      · rename_i hw
        unfold QueueInv at h ⊢
        rw [hw] at h
        cases flag <;>
          simp [dequeuedRequests, queuedRequests, List.filterMap_append, hw] at h ⊢ <;>
          exact h
    · exact h

theorem queueInv_foldl_emitEnd (l : List Nat) (flag : Bool) :
    ∀ {s : Connection}, QueueInv s → QueueInv (l.foldl (fun st sid => emitEnd st sid flag) s) := by
  induction l with
  | nil => intro s h; exact h
  | cons a l ih => intro s h; exact ih (queueInv_emitEnd h a flag)

theorem queueInv_step {s : Connection} (h : QueueInv s) (op : Op) : QueueInv (step s op) := by
  cases op with
  | handle req => exact queueInv_handle h req
  | serverEnd sid => exact queueInv_emitEnd h sid false
  | reqClose req => exact queueInv_foldl_emitEnd _ true h

theorem queueInv_run (ops : List Op) : ∀ {s : Connection}, QueueInv s → QueueInv (run s ops) := by
  induction ops with
  | nil => intro s h; exact h
  | cons a l ih => intro s h; exact ih (queueInv_step h a)

/-- C3. In every state reached from a fresh `Connection` by submissions, backend `'end'`
events and client `'close'` events: the requests whose Exchange was started from
`waitingRequests`, in the order of their starts, followed by the requests still waiting,
are the requests that were appended to `waitingRequests`, in the order of their arrival
(so the `k`-th Exchange started from the queue serves the `k`-th request that was queued,
and a request queued before another starts before it). And when an Exchange ends while a
request `w` is at the head of `waitingRequests`, the connector goes to `w`: a transport is
opened for `w` with that same connector, `w` leaves the queue, and `idleServerConnectors`
is not touched. -/
theorem waiting_served_in_arrival_order (cs : List (Option Connector)) (ops : List Op) :
    dequeuedRequests (run (Connection.ofConnectors cs) ops).log
        ++ (run (Connection.ofConnectors cs) ops).waitingRequests
      = queuedRequests (run (Connection.ofConnectors cs) ops).log ∧
    (∀ k, k < (dequeuedRequests (run (Connection.ofConnectors cs) ops).log).length →
      (dequeuedRequests (run (Connection.ofConnectors cs) ops).log)[k]?
        = (queuedRequests (run (Connection.ofConnectors cs) ops).log)[k]?) ∧
    ∀ (sid : Nat) (sv : Server) (flag : Bool) (w : Nat) (ws : List Nat),
      (run (Connection.ofConnectors cs) ops).servers[sid]? = some sv →
      sv.endListener = true →
      (run (Connection.ofConnectors cs) ops).waitingRequests = w :: ws →
      (emitEnd (run (Connection.ofConnectors cs) ops) sid flag).idleServerConnectors
          = (run (Connection.ofConnectors cs) ops).idleServerConnectors ∧
        (emitEnd (run (Connection.ofConnectors cs) ops) sid flag).waitingRequests = ws ∧
        (emitEnd (run (Connection.ofConnectors cs) ops) sid flag).servers
          = (run (Connection.ofConnectors cs) ops).servers.set sid { sv with endListener := false }
              ++ [{ req := w, connector := sv.connector, endListener := true }] := by
  have hq : QueueInv (run (Connection.ofConnectors cs) ops) :=
    queueInv_run ops (by simp [QueueInv, Connection.ofConnectors, dequeuedRequests,
      queuedRequests])
  refine ⟨hq, ?_, ?_⟩
  · intro k hk
    unfold QueueInv at hq
    rw [← hq, List.getElem?_append_left hk]
  intro sid sv flag w ws hsv hl hw
  simp [emitEnd, hsv, hl, endHandler, hw, handleRequest]

/-- Witness of C3: one connector and the requests 1, 2, 3; request 1 starts at once, 2 and 3
wait; when the Exchange of 1 ends, the connector goes to 2 and 3 still waits. -/
theorem waiting_served_in_arrival_order_witness :
    (emitEnd (run (Connection.ofConnectors [some ⟨1, ⟨none, none, some ['s']⟩⟩])
        [Op.handle 1, Op.handle 2, Op.handle 3]) 0 false).idleServerConnectors = [] ∧
      (emitEnd (run (Connection.ofConnectors [some ⟨1, ⟨none, none, some ['s']⟩⟩])
        [Op.handle 1, Op.handle 2, Op.handle 3]) 0 false).waitingRequests = [3] ∧
      (emitEnd (run (Connection.ofConnectors [some ⟨1, ⟨none, none, some ['s']⟩⟩])
        [Op.handle 1, Op.handle 2, Op.handle 3]) 0 false).servers
        = [⟨1, ⟨1, ⟨none, none, some ['s']⟩⟩, false⟩, ⟨2, ⟨1, ⟨none, none, some ['s']⟩⟩, true⟩] :=
  (waiting_served_in_arrival_order [some ⟨1, ⟨none, none, some ['s']⟩⟩]
    [Op.handle 1, Op.handle 2, Op.handle 3]).2.2 0 ⟨1, ⟨1, ⟨none, none, some ['s']⟩⟩, true⟩ false 2 [3]
    (by decide) (by decide) (by decide)

/-! ## C4 -/

theorem activeConnectors_handleRequest (s : Connection) (r : Nat) (c : Connector) :
    activeConnectors (handleRequest s r c) = activeConnectors s ++ [c] := by
  simp [activeConnectors, handleRequest, List.filter_append]

theorem active_set_perm (sv : Server) (hl : sv.endListener = true) :
    ∀ (l : List Server) (i : Nat), l[i]? = some sv →
      ((l.filter (fun x => x.endListener)).map (fun x => x.connector)).Perm
        (sv.connector ::
          ((l.set i { sv with endListener := false }).filter (fun x => x.endListener)).map
            (fun x => x.connector)) := by
  intro l
  induction l with
  | nil => intro i h; simp at h
  | cons x xs ih =>
    intro i h
    cases i with
    | zero =>
      simp only [List.getElem?_cons_zero, Option.some.injEq] at h
      subst h
      simp [List.filter_cons, hl]
    | succ j =>
      simp only [List.getElem?_cons_succ] at h
      have h1 := ih j h
      simp only [List.set_cons_succ, List.filter_cons]
      by_cases hx : x.endListener = true
      · simp only [hx, if_true, List.map_cons]
        exact (List.Perm.cons _ h1).trans (List.Perm.swap _ _ _)
      · simp only [hx, Bool.false_eq_true, if_false]
        exact h1

theorem poolInv_handleRequest_shift {cs : List Connector} {s : Connection}
    (r : Nat) (c : Connector) (idle : List (Option Connector))
    (h : (c :: (idle.filterMap id ++ activeConnectors s)).Perm cs) :
    PoolInv cs (handleRequest { s with idleServerConnectors := idle } r c) := by
  unfold PoolInv
  rw [activeConnectors_handleRequest]
  have e : activeConnectors { s with idleServerConnectors := idle } = activeConnectors s := rfl
  rw [e]
  have e2 : idleConnectors (handleRequest { s with idleServerConnectors := idle } r c)
      = idle.filterMap id := rfl
  rw [e2, ← List.append_assoc]
  exact (List.perm_append_singleton c _).trans h

theorem poolInv_handle {cs : List Connector} {s : Connection} (h : PoolInv cs s) (r : Nat) :
    PoolInv cs (handle s r) := by
  unfold handle
  split
  · rename_i c rest hi
    apply poolInv_handleRequest_shift
    unfold PoolInv idleConnectors at h
    rw [hi] at h
    simpa using h
  · rename_i rest hi
    unfold PoolInv idleConnectors at h ⊢
    rw [hi] at h
    simpa [activeConnectors] using h
  · unfold PoolInv idleConnectors at h ⊢
    simpa [activeConnectors] using h

theorem poolInv_emitEnd {cs : List Connector} {s : Connection} (h : PoolInv cs s)
    (i : Nat) (flag : Bool) : PoolInv cs (emitEnd s i flag) := by
  unfold emitEnd
  split
  · exact h
  · rename_i sv hsv
    split
    · rename_i hl
      have hp := active_set_perm sv hl s.servers i hsv
      have h2 : (sv.connector :: (idleConnectors s ++
          ((s.servers.set i { sv with endListener := false }).filter
            (fun x => x.endListener)).map (fun x => x.connector))).Perm cs := by
        refine List.Perm.trans ?_ h
        refine List.Perm.trans (List.perm_middle.symm) ?_
        exact List.Perm.append_left _ hp.symm
      unfold endHandler
      simp only []
      split
      · unfold PoolInv
        rw [activeConnectors_handleRequest, ← List.append_assoc]
        exact (List.perm_append_singleton _ _).trans h2
      · unfold PoolInv
        refine List.Perm.trans ?_ h2
        simp only [idleConnectors, activeConnectors, List.filterMap_append, List.filterMap_cons,
          id_eq, List.filterMap_nil, List.append_assoc, List.singleton_append]
        exact List.perm_middle
    · exact h

theorem poolInv_foldl_emitEnd {cs : List Connector} (l : List Nat) (flag : Bool) :
    ∀ {s : Connection}, PoolInv cs s →
      PoolInv cs (l.foldl (fun st sid => emitEnd st sid flag) s) := by
  induction l with
  | nil => intro s h; exact h
  | cons a l ih => intro s h; exact ih (poolInv_emitEnd h a flag)

theorem poolInv_step {cs : List Connector} {s : Connection} (h : PoolInv cs s) (op : Op) :
    PoolInv cs (step s op) := by
  cases op with
  | handle req => exact poolInv_handle h req
  | serverEnd sid => exact poolInv_emitEnd h sid false
  | reqClose req => exact poolInv_foldl_emitEnd _ true h

theorem poolInv_run {cs : List Connector} (ops : List Op) :
    ∀ {s : Connection}, PoolInv cs s → PoolInv cs (run s ops) := by
  induction ops with
  | nil => intro s h; exact h
  | cons a l ih => intro s h; exact ih (poolInv_step h a)

theorem poolInv_ofConnectors (cs : List Connector) :
    PoolInv cs (Connection.ofConnectors (cs.map some)) := by
  simp [PoolInv, Connection.ofConnectors, idleConnectors, activeConnectors, List.filterMap_map]

theorem count_filterMap_id (c : Connector) (l : List (Option Connector)) :
    (l.filterMap id).count c = l.count (some c) := by
  induction l with
  | nil => rfl
  | cons x xs ih =>
    cases x with
    | none => simp [List.filterMap_cons, ih]
    | some d =>
      simp only [List.filterMap_cons, id_eq, List.count_cons, ih, Option.some.injEq,
        beq_iff_eq]

/-- C4. For a pool built from `N` distinct connectors `cs`, in every state reached by
submissions, backend `'end'` events and client `'close'` events: each connector of `cs`
is either once in `idleServerConnectors` and in no active Exchange, or in exactly one active
Exchange and not idle (the two counts add up to one); the active Exchanges are at most `N`;
and when `N` are active, a submitted request is appended to `waitingRequests` and no
transport is opened for it. -/
theorem connectors_idle_or_bound (cs : List Connector) (hcs : cs.Nodup) (ops : List Op) :
    (∀ c ∈ cs,
      (run (Connection.ofConnectors (cs.map some)) ops).idleServerConnectors.count (some c)
        + (activeConnectors (run (Connection.ofConnectors (cs.map some)) ops)).count c = 1) ∧
    (activeConnectors (run (Connection.ofConnectors (cs.map some)) ops)).length ≤ cs.length ∧
    ∀ req : Nat,
      (activeConnectors (run (Connection.ofConnectors (cs.map some)) ops)).length = cs.length →
      (handle (run (Connection.ofConnectors (cs.map some)) ops) req).waitingRequests
          = (run (Connection.ofConnectors (cs.map some)) ops).waitingRequests ++ [req] ∧
        (handle (run (Connection.ofConnectors (cs.map some)) ops) req).servers
          = (run (Connection.ofConnectors (cs.map some)) ops).servers := by
  have hinv : PoolInv cs (run (Connection.ofConnectors (cs.map some)) ops) :=
    poolInv_run ops (poolInv_ofConnectors cs)
  generalize run (Connection.ofConnectors (cs.map some)) ops = s at hinv
  unfold PoolInv at hinv
  have hlen := hinv.length_eq
  rw [List.length_append] at hlen
  refine ⟨?_, by omega, ?_⟩
  · intro c hc
    have hcount := hinv.count_eq c
    rw [List.count_append, List.count_eq_one_of_mem hcs hc] at hcount
    rw [← count_filterMap_id]
    exact hcount
  · intro req hall
    have hidle : idleConnectors s = [] := List.length_eq_zero.1 (by omega)
    unfold handle
    split
    · rename_i c rest hi
      simp [idleConnectors, hi] at hidle
    · simp
    · simp

/-- Witness of C4: two connectors, three requests; the third request waits. -/
theorem connectors_idle_or_bound_witness :
    [(⟨1, ⟨none, none, some ['a']⟩⟩ : Connector), ⟨2, ⟨none, none, some ['b']⟩⟩].Nodup ∧
    (handle (run (Connection.ofConnectors
        ([(⟨1, ⟨none, none, some ['a']⟩⟩ : Connector), ⟨2, ⟨none, none, some ['b']⟩⟩].map some))
        [Op.handle 1, Op.handle 2]) 3).waitingRequests = [3] :=
  ⟨by decide,
   ((connectors_idle_or_bound [⟨1, ⟨none, none, some ['a']⟩⟩, ⟨2, ⟨none, none, some ['b']⟩⟩]
      (by decide) [Op.handle 1, Op.handle 2]).2.2 3 (by decide)).1⟩

/-! ## C6 -/

theorem writeCachedData_eq (cs : List Chunk) : writeCachedData cs = cs.map (fun c => c.bytes) := by
  induction cs with
  | nil => rfl
  | cons c cs ih => simp [writeCachedData, Chunk.truthy, ih]

theorem run_data_caching (chunks : List Chunk) :
    ∀ t : Transfer, t.dataListeners = [DataListener.pushToCache] →
      Transfer.run t (chunks.map TransferEvent.data)
        = { t with cachedData := t.cachedData ++ chunks } := by
  induction chunks with
  | nil => intro t _; simp [Transfer.run]
  | cons c cs ih =>
    intro t ht
    have h1 : Transfer.step t (TransferEvent.data c)
        = { t with cachedData := t.cachedData ++ [c] } := by
      simp [Transfer.step, emitData, ht]
    simp only [Transfer.run, List.map_cons, List.foldl_cons] at ih ⊢
    rw [h1]
    refine (ih { t with cachedData := t.cachedData ++ [c] } ht).trans ?_
    simp

theorem run_data_piping (chunks : List Chunk) :
    ∀ t : Transfer, t.dataListeners = [DataListener.pipeToServer] →
      Transfer.run t (chunks.map TransferEvent.data)
        = { t with written := t.written ++ chunks.map (fun c => c.bytes) } := by
  induction chunks with
  | nil => intro t _; simp [Transfer.run]
  | cons c cs ih =>
    intro t ht
    have h1 : Transfer.step t (TransferEvent.data c)
        = { t with written := t.written ++ [c.bytes] } := by
      simp [Transfer.step, emitData, ht]
    simp only [Transfer.run, List.map_cons, List.foldl_cons] at ih ⊢
    rw [h1]
    refine (ih { t with written := t.written ++ [c.bytes] } ht).trans ?_
    simp

/-- C6. For every header block `hb` and all body chunks `before` and `after`: when the
request emits the chunks `before`, then the transport emits `'connect'`, then the request
emits the chunks `after`, the `write` calls on the transport are, in order: the decimal
numeral of `hb.length - 2`, the header block, each chunk of `before` once and in arrival
order, each chunk of `after` once and in arrival order. -/
theorem body_written_in_arrival_order (hb : DynamicBuffer) (before after : List Chunk) :
    (Transfer.run (Transfer.start hb)
        (before.map TransferEvent.data ++ [TransferEvent.connect]
          ++ after.map TransferEvent.data)).written
      = [utf8 (numberToString ((hb.length : Int) - 2)), hb.getBuffer]
        ++ before.map (fun c => c.bytes) ++ after.map (fun c => c.bytes) := by
  have e : ∀ (t : Transfer) (l₁ l₂ : List TransferEvent),
      Transfer.run t (l₁ ++ l₂) = Transfer.run (Transfer.run t l₁) l₂ := by
    intro t l₁ l₂
    simp [Transfer.run, List.foldl_append]
  rw [e, e, run_data_caching before _ (by simp [Transfer.start, cacheDataOnReq])]
  have h2 : Transfer.run { Transfer.start hb with
        cachedData := (Transfer.start hb).cachedData ++ before } [TransferEvent.connect]
      = onServerConnect { Transfer.start hb with
        cachedData := (Transfer.start hb).cachedData ++ before } := by
    simp [Transfer.run, Transfer.step]
  rw [h2, run_data_piping after _ (by simp [onServerConnect])]
  simp [onServerConnect, Transfer.start, cacheDataOnReq, writeCachedData_eq]

/-! ## C7, C8 -/

theorem cgiHeaderLoop_eq (items : List Header) :
    ∀ (calls : List ResponseCall) (setCookies : List Str),
      cgiHeaderLoop items (calls, setCookies)
        = (calls ++ (plainHeaders items).map (fun h => ResponseCall.setHeader h.key h.value),
           setCookies ++ setCookieValues items) := by
  induction items with
  | nil => intro calls setCookies; simp [cgiHeaderLoop, plainHeaders, setCookieValues]
  | cons h rest ih =>
    intro calls setCookies
    unfold cgiHeaderLoop
    by_cases h1 : h.key = keyStatus
    · have hne : ¬ keyStatus = keySetCookie := by decide
      rw [if_pos h1, ih]
      simp [plainHeaders, setCookieValues, List.filter_cons, h1, hne]
    · rw [if_neg h1]
      by_cases h2 : h.key = keySetCookie
      · rw [if_pos h2, ih]
        simp [plainHeaders, setCookieValues, List.filter_cons, h2]
      · rw [if_neg h2, ih]
        simp [plainHeaders, setCookieValues, List.filter_cons, h1, h2]

theorem onCgiHeader_eq (hs : Headers) :
    onCgiHeader hs
      = (plainHeaders hs.items).map (fun h => ResponseCall.setHeader h.key h.value)
        ++ (if setCookieValues hs.items = [] then []
            else [ResponseCall.setHeaderList keySetCookie (setCookieValues hs.items)])
        ++ [ResponseCall.writeHead (statusCode hs.status), ResponseCall.pipe] := by
  unfold onCgiHeader
  rw [cgiHeaderLoop_eq]
  by_cases h : setCookieValues hs.items = []
  · simp [h]
  · have h2 : (setCookieValues hs.items).length ≠ 0 := by
      intro e
      exact h (List.length_eq_zero.1 e)
    simp [h]

theorem plainHeaders_key (items : List Header) :
    ∀ h ∈ plainHeaders items, h.key ≠ keyStatus ∧ h.key ≠ keySetCookie := by
  intro h hm
  simpa using (List.mem_filter.1 hm).2

/-- C7. For every backend header list: the calls of `onCgiHeader` that set a header named
`Set-Cookie` are one call, `setHeader('Set-Cookie', values)`, whose array holds the values
of all pairs with key `Set-Cookie` in backend order, when there is such a pair, and no call
when there is none. With `a=1` and `b=2` the array is `['a=1', 'b=2']`. -/
theorem set_cookie_values_in_one_header (hs : Headers) :
    (onCgiHeader hs).filter (fun c => c.headerName = some keySetCookie)
      = (if setCookieValues hs.items = [] then []
         else [ResponseCall.setHeaderList keySetCookie (setCookieValues hs.items)]) ∧
    onCgiHeader { items := [⟨"Set-Cookie".toList, "a=1".toList⟩,
                            ⟨"Set-Cookie".toList, "b=2".toList⟩], status := none }
      = [ResponseCall.setHeaderList "Set-Cookie".toList ["a=1".toList, "b=2".toList],
         ResponseCall.writeHead 200, ResponseCall.pipe] := by
  refine ⟨?_, by decide⟩
  rw [onCgiHeader_eq]
  have h1 : ((plainHeaders hs.items).map (fun h => ResponseCall.setHeader h.key h.value)).filter
      (fun c => c.headerName = some keySetCookie) = [] := by
    rw [List.filter_eq_nil_iff]
    intro c hc
    obtain ⟨h, hm, rfl⟩ := List.mem_map.1 hc
    have := (plainHeaders_key hs.items h hm).2
    simpa [ResponseCall.headerName] using this
  rw [List.filter_append, List.filter_append, h1]
  by_cases h : setCookieValues hs.items = []
  · simp [h, ResponseCall.headerName]
  · simp [h, ResponseCall.headerName]

/-- C8. For every backend header list: no call of `onCgiHeader` sets a header named
`Status`; the `setHeader` calls with a string value are the pairs whose key is neither
`Status` nor `Set-Cookie`, each with its key and value, in backend order; and the calls are
some header-setting calls, then one `writeHead`, then the `pipe`. -/
theorem status_is_never_a_header_name (hs : Headers) :
    (∀ c ∈ onCgiHeader hs, c.headerName ≠ some keyStatus) ∧
    (onCgiHeader hs).filterMap (fun c =>
        match c with
        | ResponseCall.setHeader k v => some (k, v)
        | _ => none)
      = (hs.items.filter (fun h => h.key ≠ keyStatus ∧ h.key ≠ keySetCookie)).map
          (fun h => (h.key, h.value)) ∧
    ∃ sets code, onCgiHeader hs = sets ++ [ResponseCall.writeHead code, ResponseCall.pipe] ∧
      ∀ c ∈ sets, c.headerName ≠ none := by
  rw [onCgiHeader_eq]
  refine ⟨?_, ?_, ?_⟩
  · intro c hc
    simp only [List.mem_append, List.mem_map, List.mem_cons, List.mem_singleton] at hc
    rcases hc with (⟨h, hm, rfl⟩ | hc) | hc
    · have := (plainHeaders_key hs.items h hm).1
      simpa [ResponseCall.headerName] using this
    · by_cases h : setCookieValues hs.items = []
      · simp [h] at hc
      · simp only [h, if_false, List.mem_singleton] at hc
        subst hc
        simp only [ResponseCall.headerName]
        decide
    · rcases hc with rfl | rfl | hc
      · simp [ResponseCall.headerName]
      · simp [ResponseCall.headerName]
      · simp at hc
  · rw [List.filterMap_append, List.filterMap_append]
    have h1 : ((plainHeaders hs.items).map
        (fun h => ResponseCall.setHeader h.key h.value)).filterMap (fun c =>
          match c with
          | ResponseCall.setHeader k v => some (k, v)
          | _ => none)
        = (plainHeaders hs.items).map (fun h => (h.key, h.value)) := by
      rw [List.filterMap_map]
      induction plainHeaders hs.items with
      | nil => rfl
      | cons a l ih => simp [List.filterMap_cons, ih]
    rw [h1]
    by_cases h : setCookieValues hs.items = []
    · simp [h, plainHeaders]
    · simp [h, plainHeaders]
  · refine ⟨_, _, rfl, ?_⟩
    intro c hc
    simp only [List.mem_append, List.mem_map] at hc
    rcases hc with ⟨h, _, rfl⟩ | hc
    · simp [ResponseCall.headerName]
    · by_cases h : setCookieValues hs.items = []
      · simp [h] at hc
      · simp only [h, if_false, List.mem_singleton] at hc
        subst hc
        simp [ResponseCall.headerName]

/-! ## Decimal numerals -/

theorem digitChar_toNat : ∀ m, m < 10 → (Nat.digitChar m).toNat = 48 + m := by decide

theorem decVal_append_singleton (l : Str) (c : Char) :
    decVal (l ++ [c]) = 10 * decVal l + (c.toNat - 48) := by
  simp [decVal, List.foldl_append]

theorem toDigitsCore_isNumeral :
    ∀ (fuel n : Nat) (ds : List Char), n < fuel →
      ∃ l, Nat.toDigitsCore 10 fuel n ds = l ++ ds ∧ IsNumeral l n := by
  intro fuel
  induction fuel with
  | zero => intro n ds h; omega
  | succ fuel ih =>
    intro n ds h
    have hd := digitChar_toNat (n % 10) (Nat.mod_lt _ (by decide))
    unfold Nat.toDigitsCore
    simp only []
    by_cases h0 : n / 10 = 0
    · rw [if_pos h0]
      refine ⟨[Nat.digitChar (n % 10)], rfl, by simp, ?_, ?_⟩
      · intro c hc
        simp only [List.mem_singleton] at hc
        subst hc
        omega
      · simp only [decVal, List.foldl_cons, List.foldl_nil, hd]
        omega
    · rw [if_neg h0]
      obtain ⟨l, hl, hne, hdig, hval⟩ := ih (n / 10) (Nat.digitChar (n % 10) :: ds) (by omega)
      refine ⟨l ++ [Nat.digitChar (n % 10)], by rw [hl]; simp, by simp, ?_, ?_⟩
      · intro c hc
        rcases List.mem_append.1 hc with hc | hc
        · exact hdig c hc
        · simp only [List.mem_singleton] at hc
          subst hc
          omega
      · rw [decVal_append_singleton, hval, hd]
        omega

theorem toDigits_isNumeral (n : Nat) : IsNumeral (Nat.toDigits 10 n) n := by
  obtain ⟨l, hl, hn⟩ := toDigitsCore_isNumeral (n + 1) n [] (by omega)
  unfold Nat.toDigits
  rw [hl, List.append_nil]
  exact hn

theorem utf8_ascii (l : Str) (h : ∀ c ∈ l, c.toNat < 128) : utf8 l = l.map Char.toNat := by
  induction l with
  | nil => rfl
  | cons c cs ih =>
    have hc := h c (List.mem_cons_self _ _)
    have ih2 := ih (fun d hd => h d (List.mem_cons_of_mem _ hd))
    simp only [utf8, List.flatMap_cons, List.map_cons] at ih2 ⊢
    rw [ih2]
    simp [utf8EncodeChar, hc]

theorem readDigits_digits (l : Str) (h : ∀ c ∈ l, 48 ≤ c.toNat ∧ c.toNat ≤ 57) :
    ∀ (rest : List Nat) (acc : Nat),
      readDigits (l.map Char.toNat ++ rest) acc
        = readDigits rest (l.foldl (fun a c => 10 * a + (c.toNat - 48)) acc) := by
  induction l with
  | nil => intro rest acc; rfl
  | cons c cs ih =>
    intro rest acc
    have hc := h c (List.mem_cons_self _ _)
    simp only [List.map_cons, List.cons_append, readDigits, hc, and_self, if_true,
      List.foldl_cons]
    exact ih (fun d hd => h d (List.mem_cons_of_mem _ hd)) rest _

theorem readDigits_numeral {l : Str} {n : Nat} (h : IsNumeral l n) (rest : List Nat) :
    readDigits (utf8 l ++ 58 :: rest) 0 = (n, 58 :: rest) := by
  obtain ⟨_, hdig, hval⟩ := h
  rw [utf8_ascii l (fun c hc => by have := hdig c hc; omega), readDigits_digits l hdig]
  unfold decVal at hval
  rw [hval]
  simp [readDigits]

theorem numeral_head {l : Str} {n : Nat} (h : IsNumeral l n) (rest : List Nat) :
    ∃ b tl, utf8 l ++ rest = b :: tl ∧ 48 ≤ b ∧ b ≤ 57 := by
  obtain ⟨hne, hdig, _⟩ := h
  rw [utf8_ascii l (fun c hc => by have := hdig c hc; omega)]
  cases l with
  | nil => exact absurd rfl hne
  | cons c cs =>
    exact ⟨c.toNat, cs.map Char.toNat ++ rest, rfl, hdig c (List.mem_cons_self _ _)⟩

theorem numberToString_natCast (n : Nat) : numberToString (n : Int) = Nat.toDigits 10 n := by
  simp [numberToString]

/-! ## The header block -/

theorem foldl_appendPair_bytes (pairs : List (Str × Str)) :
    ∀ b : DynamicBuffer, (pairs.foldl appendPair b).bytes = b.bytes ++ encodePairs pairs := by
  induction pairs with
  | nil => intro b; simp [encodePairs]
  | cons kv rest ih =>
    intro b
    simp only [List.foldl_cons, ih, encodePairs, List.flatMap_cons]
    simp [appendPair, DynamicBuffer.append, DynamicBuffer.write]

theorem encodePairs_append (p q : List (Str × Str)) :
    encodePairs (p ++ q) = encodePairs p ++ encodePairs q := by
  simp [encodePairs, List.flatMap_append]

theorem utf8_colon : utf8 [':'] = [58] := by decide

theorem utf8_comma : utf8 [','] = [44] := by decide

theorem handleHeadersBuffer_bytes {pv : Str} {mpl : Option Int} {map : List (Str × Str)}
    {req : ServerRequest} {hb : DynamicBuffer} {map1 : List (Str × Str)}
    (h : handleHeadersBuffer pv mpl map req = some (hb, map1)) :
    ∃ pairs, handlePairs pv mpl map req = some pairs ∧
      hb.bytes = 58 :: (encodePairs pairs ++ [44]) := by
  unfold handleHeadersBuffer at h
  unfold handlePairs
  cases hp : httpHeaderPairs map req.headers with
  | none => simp [hp] at h
  | some r =>
    obtain ⟨ps, m⟩ := r
    simp only [hp, Option.some.injEq, Prod.mk.injEq] at h
    refine ⟨_, rfl, ?_⟩
    rw [← h.1]
    simp only [DynamicBuffer.append, foldl_appendPair_bytes, DynamicBuffer.clone,
      staticHeaderBuffer, DynamicBuffer.new, utf8_colon, utf8_comma, encodePairs_append]
    simp

theorem handleHeadersBuffer_of_pairs {pv : Str} {mpl : Option Int} {map : List (Str × Str)}
    {req : ServerRequest} {pairs : List (Str × Str)}
    (h : handlePairs pv mpl map req = some pairs) :
    ∃ hb map1, handleHeadersBuffer pv mpl map req = some (hb, map1) := by
  unfold handlePairs at h
  unfold handleHeadersBuffer
  cases hp : httpHeaderPairs map req.headers with
  | none => simp [hp] at h
  | some r => exact ⟨_, _, rfl⟩

theorem declared_length_is_byte_count_aux {pv : Str} {mpl : Option Int}
    {map : List (Str × Str)} {req : ServerRequest} {hb : DynamicBuffer}
    {map1 : List (Str × Str)} (h : handleHeadersBuffer pv mpl map req = some (hb, map1)) :
    ∃ pairs, handlePairs pv mpl map req = some pairs ∧
      hb.getBuffer = 58 :: (encodePairs pairs ++ [44]) ∧
      (onServerConnect (Transfer.start hb)).written
        = [utf8 (Nat.toDigits 10 (encodePairs pairs).length), hb.getBuffer] := by
  obtain ⟨pairs, hp, hbytes⟩ := handleHeadersBuffer_bytes h
  refine ⟨pairs, hp, hbytes, ?_⟩
  have hlen : ((hb.length : Int) - 2) = ((encodePairs pairs).length : Int) := by
    have hl : hb.length = (encodePairs pairs).length + 2 := by
      simp [DynamicBuffer.length, hbytes]
    rw [hl]
    push_cast
    omega
  simp only [onServerConnect, Transfer.start, cacheDataOnReq, hlen, numberToString_natCast,
    writeCachedData, List.nil_append, List.append_nil]

/-! ## C2 -/

/-- C2. For every request for which `handle` builds a header block `hb` (from any content
of the name cache): `hb` is a `':'`, then the bytes of the pairs that the constructor and
`handle` appended (the static pairs, then the pairs of the request), then a `','`; and on
`'connect'` the first thing written to the transport is the decimal numeral of the number
of bytes between that `':'` and that `','`, followed by the block itself. The count is in
bytes of the UTF-8 encoding, whatever the characters. -/
theorem declared_length_is_byte_count (pv : Str) (mpl : Option Int) (map : List (Str × Str))
    (req : ServerRequest) (hb : DynamicBuffer) (map1 : List (Str × Str))
    (h : handleHeadersBuffer pv mpl map req = some (hb, map1)) :
    ∃ pairs, handlePairs pv mpl map req = some pairs ∧
      hb.getBuffer = 58 :: (encodePairs pairs ++ [44]) ∧
      (onServerConnect (Transfer.start hb)).written
        = [utf8 (Nat.toDigits 10 (encodePairs pairs).length), hb.getBuffer] :=
  declared_length_is_byte_count_aux h

/-- Witness of C2: a `GET /` with no header; the pairs take 134 bytes. -/
theorem declared_length_is_byte_count_witness :
    handleHeadersBuffer "v0.8.0".toList none []
        ⟨[], ⟨none, "/".toList, "/".toList⟩, "GET".toList, none⟩
      = some (((requestPairs none ⟨[], ⟨none, "/".toList, "/".toList⟩, "GET".toList, none⟩).foldl
          appendPair (staticHeaderBuffer "v0.8.0".toList).clone).append [','], []) ∧
    ∃ pairs, handlePairs "v0.8.0".toList none []
          ⟨[], ⟨none, "/".toList, "/".toList⟩, "GET".toList, none⟩ = some pairs ∧
      (((requestPairs none ⟨[], ⟨none, "/".toList, "/".toList⟩, "GET".toList, none⟩).foldl
          appendPair (staticHeaderBuffer "v0.8.0".toList).clone).append [',']).getBuffer
        = 58 :: (encodePairs pairs ++ [44]) ∧
      (onServerConnect (Transfer.start
          (((requestPairs none ⟨[], ⟨none, "/".toList, "/".toList⟩, "GET".toList, none⟩).foldl
            appendPair (staticHeaderBuffer "v0.8.0".toList).clone).append [',']))).written
        = [utf8 (Nat.toDigits 10 (encodePairs pairs).length),
           (((requestPairs none ⟨[], ⟨none, "/".toList, "/".toList⟩, "GET".toList, none⟩).foldl
            appendPair (staticHeaderBuffer "v0.8.0".toList).clone).append [',']).getBuffer] :=
  ⟨rfl, declared_length_is_byte_count "v0.8.0".toList none []
    ⟨[], ⟨none, "/".toList, "/".toList⟩, "GET".toList, none⟩ _ _ rfl⟩

/-! ## C5 -/

theorem utf8EncodeChar_ne_zero (c : Char) (hc : c.toNat ≠ 0) : (0 : Nat) ∉ utf8EncodeChar c := by
  unfold utf8EncodeChar
  simp only []
  split_ifs <;> simp <;> omega

theorem utf8_noNul {s : Str} (h : noNul s) : (0 : Nat) ∉ utf8 s := by
  unfold utf8
  intro hm
  obtain ⟨c, hc, h0⟩ := List.mem_flatMap.1 hm
  exact utf8EncodeChar_ne_zero c (h c hc) h0

theorem splitNul_string (bs : List Nat) (h : (0 : Nat) ∉ bs) :
    ∀ (cur rest : List Nat),
      splitNul (bs ++ 0 :: rest) cur
        = (splitNul rest []).map (fun strs => (cur ++ bs) :: strs) := by
  induction bs with
  | nil =>
    intro cur rest
    simp only [List.nil_append, splitNul, if_true, List.append_nil]
    cases splitNul rest [] <;> rfl
  | cons b bs ih =>
    intro cur rest
    have hb : b ≠ 0 := fun e => h (by simp [e])
    have hbs : (0 : Nat) ∉ bs := fun e => h (List.mem_cons_of_mem _ e)
    have e : splitNul (b :: (bs ++ 0 :: rest)) cur = splitNul (bs ++ 0 :: rest) (cur ++ [b]) := by
      simp [splitNul, hb]
    rw [List.cons_append, e, ih hbs]
    simp

theorem encodePairs_cons (kv : Str × Str) (rest : List (Str × Str)) :
    encodePairs (kv :: rest) = utf8 kv.1 ++ 0 :: (utf8 kv.2 ++ 0 :: encodePairs rest) := by
  simp [encodePairs]

theorem splitNul_encodePairs (pairs : List (Str × Str))
    (h : ∀ kv ∈ pairs, noNul kv.1 ∧ noNul kv.2) :
    splitNul (encodePairs pairs) [] = some (pairs.flatMap (fun kv => [utf8 kv.1, utf8 kv.2])) := by
  induction pairs with
  | nil => rfl
  | cons kv rest ih =>
    have hkv := h kv (List.mem_cons_self _ _)
    have ih2 := ih (fun p hp => h p (List.mem_cons_of_mem _ hp))
    rw [encodePairs_cons, splitNul_string _ (utf8_noNul hkv.1),
      splitNul_string _ (utf8_noNul hkv.2), ih2]
    simp

theorem pairUp_flatMap (pairs : List (Str × Str)) :
    pairUp (pairs.flatMap (fun kv => [utf8 kv.1, utf8 kv.2]))
      = some (pairs.map (fun kv => (utf8 kv.1, utf8 kv.2))) := by
  induction pairs with
  | nil => rfl
  | cons kv rest ih =>
    have e : (kv :: rest).flatMap (fun kv => [utf8 kv.1, utf8 kv.2])
        = utf8 kv.1 :: utf8 kv.2 :: rest.flatMap (fun kv => [utf8 kv.1, utf8 kv.2]) := by
      simp
    rw [e]
    simp only [pairUp, ih, List.map_cons]

theorem scgiReadHeader_wire (pairs : List (Str × Str))
    (h : ∀ kv ∈ pairs, noNul kv.1 ∧ noNul kv.2) (body : List Nat) :
    scgiReadHeader (utf8 (Nat.toDigits 10 (encodePairs pairs).length)
        ++ 58 :: (encodePairs pairs ++ 44 :: body))
      = some (pairs.map (fun kv => (utf8 kv.1, utf8 kv.2)), body) := by
  have hnum := toDigits_isNumeral (encodePairs pairs).length
  obtain ⟨b, tl, hbt, hb1, hb2⟩ := numeral_head hnum (58 :: (encodePairs pairs ++ 44 :: body))
  have hr := readDigits_numeral hnum (encodePairs pairs ++ 44 :: body)
  rw [hbt] at hr ⊢
  unfold scgiReadHeader
  simp only [hb1, hb2, and_self, if_true, hr]
  have hlen : (encodePairs pairs).length ≤ (encodePairs pairs ++ 44 :: body).length := by
    simp
  rw [if_pos hlen]
  have hdrop : (encodePairs pairs ++ 44 :: body).drop (encodePairs pairs).length = 44 :: body := by
    simp
  have htake : (encodePairs pairs ++ 44 :: body).take (encodePairs pairs).length
      = encodePairs pairs := by
    simp
  rw [hdrop]
  simp only [htake, splitNul_encodePairs pairs h, pairUp_flatMap]

/-- C5, as amended. For every request for which `handle` appends the pairs `pairs`, none
of whose names and values holds a NUL character: `handle` builds a header block, and a
reader that takes the decimal length before the `':'`, that many bytes after it and the
`','`, and splits the bytes into NUL-terminated strings, gets from the bytes written on
`'connect'` (followed by any body bytes) exactly the names and values that were appended,
in the same order, and is left with the body. -/
theorem header_block_round_trip (pv : Str) (mpl : Option Int) (map : List (Str × Str))
    (req : ServerRequest) (pairs : List (Str × Str)) (body : List Nat)
    (hp : handlePairs pv mpl map req = some pairs)
    (hnul : ∀ kv ∈ pairs, noNul kv.1 ∧ noNul kv.2) :
    ∃ hb map1, handleHeadersBuffer pv mpl map req = some (hb, map1) ∧
      scgiReadHeader ((onServerConnect (Transfer.start hb)).written.flatten ++ body)
        = some (pairs.map (fun kv => (utf8 kv.1, utf8 kv.2)), body) := by
  obtain ⟨hb, map1, hh⟩ := handleHeadersBuffer_of_pairs hp
  refine ⟨hb, map1, hh, ?_⟩
  obtain ⟨pairs2, hp2, hbytes, hw⟩ := declared_length_is_byte_count_aux hh
  rw [hp] at hp2
  cases hp2
  rw [hw, hbytes]
  have := scgiReadHeader_wire pairs hnul body
  simpa using this

/-! ## C9 -/

theorem lookup_mem {k v : Str} : ∀ {m : List (Str × Str)}, m.lookup k = some v → (k, v) ∈ m := by
  intro m
  induction m with
  | nil => intro h; simp at h
  | cons p rest ih =>
    intro h
    obtain ⟨a, b⟩ := p
    rw [List.lookup_cons] at h
    by_cases e : k = a
    · subst e
      simp at h
      simp [h]
    · have e2 : (k == a) = false := by simpa using e
      rw [e2] at h
      exact List.mem_cons_of_mem _ (ih h)

theorem scgiFieldName_eq (h : Str) :
    scgiFieldName h = "HTTP_".toList ++ toUpperCase (replaceDashes h) := rfl

/-- Away from the names that `{}` inherits, the memoized function is the pure one: from a
sound cache it returns the SCGI name and leaves a sound cache. -/
theorem httpHeaderToScgiHeaderProperty_sound (map : List (Str × Str)) (h : Str)
    (hinv : CacheInv map) (hh : h ∉ objectPrototypeMembers) :
    (httpHeaderToScgiHeaderProperty map h).1 = JSValue.string (scgiFieldName h) ∧
      CacheInv (httpHeaderToScgiHeaderProperty map h).2 := by
  have hproto : h ≠ "__proto__".toList := by
    intro e
    apply hh
    rw [e]
    decide
  unfold httpHeaderToScgiHeaderProperty jsGet
  cases hl : map.lookup h with
  | none =>
    simp only [hh, if_false, JSValue.truthy, Bool.not_false, if_true, ← scgiFieldName_eq]
    refine ⟨trivial, ?_⟩
    intro k v hkv
    simp only [jsSet, if_neg hproto, List.mem_cons, Prod.mk.injEq] at hkv
    rcases hkv with ⟨rfl, rfl⟩ | hkv
    · rfl
    · exact hinv k v hkv
  | some v =>
    have hv : v = scgiFieldName h := hinv h v (lookup_mem hl)
    have ht : (JSValue.string v).truthy = true := by
      rw [hv]
      simp [JSValue.truthy, scgiFieldName]
    simp only [ht, Bool.not_true, Bool.false_eq_true, if_false]
    exact ⟨by rw [hv], hinv⟩

theorem httpHeaderToScgiHeaderProperty_string (map : List (Str × Str)) (h : Str)
    (hh : h ∉ objectPrototypeMembers) :
    ∃ name, (httpHeaderToScgiHeaderProperty map h).1 = JSValue.string name := by
  unfold httpHeaderToScgiHeaderProperty jsGet
  cases hl : map.lookup h with
  | none => simp [hh, JSValue.truthy]
  | some v =>
    by_cases ht : (JSValue.string v).truthy = true
    · simp [ht]
    · simp [ht]

/-- The loop over the request headers builds its pairs whenever no header is named like a
member of `Object.prototype`. -/
theorem httpHeaderPairs_isSome (headers : List (Str × Str))
    (h : ∀ kv ∈ headers, kv.1 ∉ objectPrototypeMembers) :
    ∀ map : List (Str × Str), (httpHeaderPairs map headers).isSome = true := by
  induction headers with
  | nil => intro map; rfl
  | cons kv rest ih =>
    intro map
    obtain ⟨k, v⟩ := kv
    obtain ⟨name, hn⟩ := httpHeaderToScgiHeaderProperty_string map k
      (h (k, v) (List.mem_cons_self _ _))
    have ih2 := ih (fun p hp => h p (List.mem_cons_of_mem _ hp))
    unfold httpHeaderPairs
    cases hr : httpHeaderToScgiHeaderProperty map k with
    | mk val map1 =>
      rw [hr] at hn
      simp only at hn
      subst hn
      simp only []
      have := ih2 map1
      cases hrest : httpHeaderPairs map1 rest with
      | none => rw [hrest] at this; exact absurd this (by simp)
      | some r => rfl

/-- So `handle` builds a header block for every request none of whose headers is named like
a member of `Object.prototype`, whatever the cache holds. -/
theorem handleHeadersBuffer_isSome (pv : Str) (mpl : Option Int) (map : List (Str × Str))
    (req : ServerRequest) (h : ∀ kv ∈ req.headers, kv.1 ∉ objectPrototypeMembers) :
    (handleHeadersBuffer pv mpl map req).isSome = true := by
  have := httpHeaderPairs_isSome req.headers h map
  unfold handleHeadersBuffer
  cases hr : httpHeaderPairs map req.headers with
  | none => rw [hr] at this; exact absurd this (by simp)
  | some r => rfl

/-- C10, at the input on which the code fails: on a fresh cache, the name `constructor`
(the header `Constructor`, lower-cased by the HTTP parser) is looked up in `{}`, where it
finds the inherited member of `Object.prototype`; the function returns that object, not the
string `HTTP_CONSTRUCTOR`. -/
theorem constructor_header_name_is_not_translated :
    (httpHeaderToScgiHeaderProperty [] "constructor".toList).1
      = JSValue.object "constructor".toList ∧
    scgiFieldName "constructor".toList = "HTTP_CONSTRUCTOR".toList ∧
    (httpHeaderToScgiHeaderProperty [] "constructor".toList).1
      ≠ JSValue.string (scgiFieldName "constructor".toList) ∧
    scgiFieldName "Accept-Language".toList = "HTTP_ACCEPT_LANGUAGE".toList := by
  decide

set_option maxRecDepth 100000 in
/-- Witness of C5: the example request, followed by three body bytes. -/
theorem header_block_round_trip_witness :
    handlePairs "v0.8.0".toList none [] sampleRequest
      = some (staticHeaderPairs "v0.8.0".toList ++ requestPairs none sampleRequest
          ++ [("HTTP_HOST".toList, "example.org".toList),
              ("HTTP_ACCEPT_LANGUAGE".toList, "de".toList)]) ∧
    ∃ hb map1, handleHeadersBuffer "v0.8.0".toList none [] sampleRequest = some (hb, map1) ∧
      scgiReadHeader ((onServerConnect (Transfer.start hb)).written.flatten ++ [1, 2, 3])
        = some ((staticHeaderPairs "v0.8.0".toList ++ requestPairs none sampleRequest
            ++ [("HTTP_HOST".toList, "example.org".toList),
                ("HTTP_ACCEPT_LANGUAGE".toList, "de".toList)]).map
              (fun kv => (utf8 kv.1, utf8 kv.2)), [1, 2, 3]) :=
  ⟨by decide,
   header_block_round_trip "v0.8.0".toList none [] sampleRequest _ [1, 2, 3]
     (by decide) (by decide)⟩

set_option maxRecDepth 100000 in
/-- Counterexample to C5 as stated: for a request whose header `x-a` has the value `a`, NUL,
`B`, NUL, `c`, `handle` appends the pair `HTTP_X_A` with that value, and the reader gets the
two pairs `HTTP_X_A` = `a` and `B` = `c` from the bytes written. -/
theorem nul_in_a_value_breaks_the_round_trip :
    handlePairs "v0.8.0".toList none [] nulRequest
      = some (staticHeaderPairs "v0.8.0".toList ++ requestPairs none nulRequest
          ++ [("HTTP_X_A".toList, ['a', Char.ofNat 0, 'B', Char.ofNat 0, 'c'])]) ∧
    (handleHeadersBuffer "v0.8.0".toList none [] nulRequest).bind
        (fun r => scgiReadHeader (onServerConnect (Transfer.start r.1)).written.flatten)
      = some ((staticHeaderPairs "v0.8.0".toList ++ requestPairs none nulRequest
          ++ [("HTTP_X_A".toList, "a".toList), ("B".toList, "c".toList)]).map
            (fun kv => (utf8 kv.1, utf8 kv.2)), []) ∧
    (handleHeadersBuffer "v0.8.0".toList none [] nulRequest).bind
        (fun r => scgiReadHeader (onServerConnect (Transfer.start r.1)).written.flatten)
      ≠ (handlePairs "v0.8.0".toList none [] nulRequest).map
          (fun ps => (ps.map (fun kv => (utf8 kv.1, utf8 kv.2)), [])) := by
  decide

/-! ## C11 -/

theorem generatorLoop_valid (f : Nat → SpecValue) :
    ∀ (specs : List ConnectionSpec) (n fuel : Nat) (idle : List (Option Connector))
      (calls : List Nat),
      (∀ i spec, specs[i]? = some spec → f (n + i) = SpecValue.object spec ∧ spec.valid = true) →
      f (n + specs.length) = SpecValue.null →
      specs.length < fuel →
      generatorLoop f fuel n idle calls
        = Outcome.done (idle ++ connectorsFrom n specs,
            calls ++ (List.range (specs.length + 1)).map (fun i => n + i)) := by
  intro specs
  induction specs with
  | nil =>
    intro n fuel idle calls _ hnull hfuel
    cases fuel with
    | zero => omega
    | succ fuel =>
      simp only [List.length_nil, Nat.add_zero] at hnull
      simp [generatorLoop, hnull, getConnectorFromConnectionSpec, connectorsFrom, List.range_succ]
  | cons spec rest ih =>
    intro n fuel idle calls hvalid hnull hfuel
    cases fuel with
    | zero => omega
    | succ fuel =>
      obtain ⟨h0, hv0⟩ := hvalid 0 spec (by simp)
      simp only [Nat.add_zero] at h0
      have hget : getConnectorFromConnectionSpec (f n) n
          = Except.ok (some { id := n, specification := spec }) := by
        rw [h0]
        unfold getConnectorFromConnectionSpec
        simp only [ConnectionSpec.valid, Bool.or_eq_true] at hv0
        rcases hv0 with hv | hv
        · simp [hv]
        · by_cases hp : spec.portAndHost = true
          · simp [hp]
          · simp [hp, hv]
      unfold generatorLoop
      simp only [hget]
      rw [ih (n + 1) fuel _ _ ?_ ?_ ?_]
      · simp only [connectorsFrom, List.append_assoc, List.singleton_append, List.length_cons,
          Outcome.done.injEq, Prod.mk.injEq, true_and]
        rw [List.range_succ_eq_map (rest.length + 1)]
        simp only [List.map_cons, Nat.add_zero, List.map_map]
        congr 2
        apply List.map_congr_left
        intro i _
        simp only [Function.comp_apply]
        omega
      · intro i s hs
        have := hvalid (i + 1) s (by simpa using hs)
        rw [show n + 1 + i = n + (i + 1) by omega]
        exact this
      · rw [show n + 1 + rest.length = n + (rest.length + 1) by omega]
        simpa using hnull
      · simp only [List.length_cons] at hfuel
        omega

theorem connectorsFrom_getElem? (specs : List ConnectionSpec) :
    ∀ (n i : Nat), (connectorsFrom n specs)[i]?
      = (specs[i]?).map (fun spec => some { id := n + i, specification := spec }) := by
  induction specs with
  | nil => intro n i; simp [connectorsFrom]
  | cons spec rest ih =>
    intro n i
    cases i with
    | zero => simp [connectorsFrom]
    | succ j =>
      simp only [connectorsFrom, List.getElem?_cons_succ, ih]
      cases rest[j]? with
      | none => rfl
      | some s =>
        simp only [Option.map_some', Option.some.injEq, Connector.mk.injEq, and_true]
        omega

theorem connectorsFrom_length (specs : List ConnectionSpec) :
    ∀ n : Nat, (connectorsFrom n specs).length = specs.length := by
  induction specs with
  | nil => intro n; rfl
  | cons spec rest ih => intro n; simp [connectorsFrom, ih]

/-- C11. For every generator `f` that returns the valid specifications `specs` for the
arguments 1 to `k` (`k` the length of `specs`) and `null` for `k + 1`: given at least
`k + 1` iterations the loop of the constructor ends, without a throw; `f` has been called
with 1, 2, ..., `k + 1` in that order and not otherwise; and `idleServerConnectors` holds `k`
connectors, the `i`-th with `id = i` and the specification `f(i)`. -/
theorem generator_seeds_the_idle_list (pv : Str) (f : Nat → SpecValue)
    (specs : List ConnectionSpec) (fuel : Nat)
    (hvalid : ∀ i spec, specs[i]? = some spec →
      f (i + 1) = SpecValue.object spec ∧ spec.valid = true)
    (hnull : f (specs.length + 1) = SpecValue.null)
    (hfuel : specs.length < fuel) :
    ∃ conn, newConnection pv (ConstructorArg.function f) fuel = Outcome.done conn ∧
      conn.specCalls = (List.range (specs.length + 1)).map (fun i => i + 1) ∧
      conn.pool.idleServerConnectors.length = specs.length ∧
      (∀ i spec, specs[i]? = some spec →
        conn.pool.idleServerConnectors[i]? = some (some { id := i + 1, specification := spec }) ∧
        f (i + 1) = SpecValue.object spec) ∧
      conn.pool.waitingRequests = [] := by
  have hloop := generatorLoop_valid f specs 1 fuel [] []
    (fun i spec hs => by rw [Nat.add_comm]; exact hvalid i spec hs)
    (by rw [Nat.add_comm]; exact hnull) hfuel
  refine ⟨{ pool := Connection.ofConnectors (connectorsFrom 1 specs)
            staticHeaderBuffer := staticHeaderBuffer pv
            mountPointLength := none
            specCalls := (List.range (specs.length + 1)).map (fun i => 1 + i) }, ?_, ?_, ?_, ?_, ?_⟩
  · simp only [newConnection, hloop, List.nil_append]
  · simp only []
    apply List.map_congr_left
    intro i _
    omega
  · simp [Connection.ofConnectors, connectorsFrom_length]
  · intro i spec hs
    refine ⟨?_, (hvalid i spec hs).1⟩
    simp only [Connection.ofConnectors, List.nil_append, connectorsFrom_getElem?, hs,
      Option.map_some', Option.some.injEq, Connector.mk.injEq, and_true]
    omega
  · rfl

/-- Witness of C11: a generator of two socket specifications. -/
theorem generator_seeds_the_idle_list_witness :
    ∃ conn, newConnection "v0.8.0".toList
        (ConstructorArg.function (fun n =>
          if n = 1 then SpecValue.object ⟨none, none, some "/tmp/a".toList⟩
          else if n = 2 then SpecValue.object ⟨none, none, some "/tmp/b".toList⟩
          else SpecValue.null)) 3 = Outcome.done conn ∧
      conn.specCalls = [1, 2, 3] ∧
      conn.pool.idleServerConnectors.length = 2 ∧
      (∀ i spec, [(⟨none, none, some "/tmp/a".toList⟩ : ConnectionSpec),
            ⟨none, none, some "/tmp/b".toList⟩][i]? = some spec →
        conn.pool.idleServerConnectors[i]? = some (some { id := i + 1, specification := spec }) ∧
        (fun n =>
          if n = 1 then SpecValue.object ⟨none, none, some "/tmp/a".toList⟩
          else if n = 2 then SpecValue.object ⟨none, none, some "/tmp/b".toList⟩
          else SpecValue.null) (i + 1) = SpecValue.object spec) ∧
      conn.pool.waitingRequests = [] :=
  generator_seeds_the_idle_list "v0.8.0".toList _
    [⟨none, none, some "/tmp/a".toList⟩, ⟨none, none, some "/tmp/b".toList⟩] 3
    (by
      intro i spec hs
      match i, hs with
      | 0, hs => cases hs; decide
      | 1, hs => cases hs; decide
      | _ + 2, hs => simp at hs)
    (by decide) (by decide)

/-! ## C12, C13 -/

theorem getConnectorFromConnectionSpec_object (spec : ConnectionSpec) (n : Nat) :
    getConnectorFromConnectionSpec (SpecValue.object spec) n
      = if spec.valid = true then Except.ok (some { id := n, specification := spec })
        else Except.error (JSError.referenceError "Exception".toList) := by
  unfold getConnectorFromConnectionSpec ConnectionSpec.valid
  by_cases hp : spec.portAndHost = true
  · simp [hp]
  · by_cases hs : spec.socketPath = true
    · simp [hp, hs]
    · simp [hp, hs]

theorem generatorLoop_invalid (f : Nat → SpecValue) (bad : ConnectionSpec)
    (hbad : bad.valid = false) :
    ∀ (specs : List ConnectionSpec) (n fuel : Nat) (idle : List (Option Connector))
      (calls : List Nat),
      (∀ i spec, specs[i]? = some spec → f (n + i) = SpecValue.object spec ∧ spec.valid = true) →
      f (n + specs.length) = SpecValue.object bad →
      specs.length < fuel →
      generatorLoop f fuel n idle calls
        = Outcome.thrown (JSError.referenceError "Exception".toList) := by
  intro specs
  induction specs with
  | nil =>
    intro n fuel idle calls _ hb hfuel
    cases fuel with
    | zero => omega
    | succ fuel =>
      simp only [List.length_nil, Nat.add_zero] at hb
      unfold generatorLoop
      rw [hb, getConnectorFromConnectionSpec_object, hbad]
      simp
  | cons spec rest ih =>
    intro n fuel idle calls hvalid hb hfuel
    cases fuel with
    | zero => omega
    | succ fuel =>
      obtain ⟨h0, hv0⟩ := hvalid 0 spec (by simp)
      simp only [Nat.add_zero] at h0
      unfold generatorLoop
      rw [h0, getConnectorFromConnectionSpec_object, hv0]
      simp only [if_true]
      apply ih
      · intro i s hs
        have := hvalid (i + 1) s (by simpa using hs)
        rw [show n + 1 + i = n + (i + 1) by omega]
        exact this
      · rw [show n + 1 + rest.length = n + (rest.length + 1) by omega]
        simpa using hb
      · simp only [List.length_cons] at hfuel
        omega

/-- C12, as amended. A specification object is accepted exactly when it has a port other
than 0 together with a non-empty host, or a non-empty socket path: then
`getConnectorFromConnectionSpec` returns a connector and does not raise; every other
non-null specification makes it raise. When such a specification is given directly, the
constructor raises; when the generator returns it at some call, after valid ones, the
constructor raises at that call, as soon as the loop is given that many iterations. In both
cases no `Connection` object exists on which a request could be handled. -/
theorem invalid_specification_raises (pv : Str) (spec : ConnectionSpec) :
    (∀ n, getConnectorFromConnectionSpec (SpecValue.object spec) n
      = if spec.valid = true then Except.ok (some { id := n, specification := spec })
        else Except.error (JSError.referenceError "Exception".toList)) ∧
    (spec.valid = false → ∀ fuel,
      newConnection pv (ConstructorArg.value (SpecValue.object spec)) fuel
        = Outcome.thrown (JSError.referenceError "Exception".toList)) ∧
    (spec.valid = false → ∀ (f : Nat → SpecValue) (specs : List ConnectionSpec) (fuel : Nat),
      (∀ i s, specs[i]? = some s → f (i + 1) = SpecValue.object s ∧ s.valid = true) →
      f (specs.length + 1) = SpecValue.object spec →
      specs.length < fuel →
      newConnection pv (ConstructorArg.function f) fuel
        = Outcome.thrown (JSError.referenceError "Exception".toList)) := by
  refine ⟨getConnectorFromConnectionSpec_object spec, ?_, ?_⟩
  · intro hbad fuel
    simp [newConnection, getConnectorFromConnectionSpec_object, hbad]
  · intro hbad f specs fuel hvalid hb hfuel
    have hloop := generatorLoop_invalid f spec hbad specs 1 fuel [] []
      (fun i s hs => by rw [Nat.add_comm]; exact hvalid i s hs)
      (by rw [Nat.add_comm]; exact hb) hfuel
    simp only [newConnection, hloop]

/-- Witness of C12: a specification with a host and no port, given directly. -/
theorem invalid_specification_raises_witness :
    (⟨some "localhost".toList, none, none⟩ : ConnectionSpec).valid = false ∧
    ∀ fuel, newConnection "v0.8.0".toList
        (ConstructorArg.value (SpecValue.object ⟨some "localhost".toList, none, none⟩)) fuel
      = Outcome.thrown (JSError.referenceError "Exception".toList) :=
  ⟨by decide,
   (invalid_specification_raises "v0.8.0".toList ⟨some "localhost".toList, none, none⟩).2.1
     (by decide)⟩

/-- Counterexample to C12 as stated: the specification `{host: 'localhost', port: 0}` has a
host and a port, and `getConnectorFromConnectionSpec` raises for it: the port 0 is falsy in
the condition of line 286. -/
theorem port_zero_raises :
    (⟨some "localhost".toList, some 0, none⟩ : ConnectionSpec).host.isSome = true ∧
    (⟨some "localhost".toList, some 0, none⟩ : ConnectionSpec).port.isSome = true ∧
    getConnectorFromConnectionSpec (SpecValue.object ⟨some "localhost".toList, some 0, none⟩) 1
      = Except.error (JSError.referenceError "Exception".toList) :=
  ⟨by decide, by decide, rfl⟩

/-- C13, as amended. A sequence of specifications is not an input of the constructor: for
every array, whatever it holds, the constructor raises, since an array has neither port and
host nor socket. A single valid specification gives one connector, with id 1, as the idle
list, and an empty queue. -/
theorem single_specification_gives_one_connector (pv : Str) :
    (∀ (specs : List ConnectionSpec) (fuel : Nat),
      newConnection pv (ConstructorArg.value (SpecValue.array specs)) fuel
        = Outcome.thrown (JSError.referenceError "Exception".toList)) ∧
    (∀ (spec : ConnectionSpec) (fuel : Nat), spec.valid = true →
      newConnection pv (ConstructorArg.value (SpecValue.object spec)) fuel
        = Outcome.done
            { pool := Connection.ofConnectors [some { id := 1, specification := spec }]
              staticHeaderBuffer := staticHeaderBuffer pv
              mountPointLength := none
              specCalls := [] }) := by
  refine ⟨?_, ?_⟩
  · intro specs fuel
    simp [newConnection, getConnectorFromConnectionSpec]
  · intro spec fuel hv
    simp [newConnection, getConnectorFromConnectionSpec_object, hv]

/-- Witness of C13: the specification `{host: '127.0.0.1', port: 8088}`. -/
theorem single_specification_gives_one_connector_witness :
    (⟨some "127.0.0.1".toList, some 8088, none⟩ : ConnectionSpec).valid = true ∧
    newConnection "v0.8.0".toList
        (ConstructorArg.value (SpecValue.object ⟨some "127.0.0.1".toList, some 8088, none⟩)) 0
      = Outcome.done
          { pool := Connection.ofConnectors
              [some { id := 1, specification := ⟨some "127.0.0.1".toList, some 8088, none⟩ }]
            staticHeaderBuffer := staticHeaderBuffer "v0.8.0".toList
            mountPointLength := none
            specCalls := [] } :=
  ⟨by decide,
   (single_specification_gives_one_connector "v0.8.0".toList).2
     ⟨some "127.0.0.1".toList, some 8088, none⟩ 0 (by decide)⟩

/-- Counterexample to C13 as stated: a sequence of two valid specifications, given to the
constructor, makes it raise; no connector is produced. -/
theorem sequence_of_specifications_raises :
    (⟨some "127.0.0.1".toList, some 8088, none⟩ : ConnectionSpec).valid = true ∧
    (⟨none, none, some "/tmp/my_socket".toList⟩ : ConnectionSpec).valid = true ∧
    newConnection "v0.8.0".toList
        (ConstructorArg.value (SpecValue.array
          [⟨some "127.0.0.1".toList, some 8088, none⟩,
           ⟨none, none, some "/tmp/my_socket".toList⟩])) 5
      = Outcome.thrown (JSError.referenceError "Exception".toList) := by
  decide

/-! ## C14 -/

/-- The soundness of the cache is kept by every call, for every header name: a name that
`{}` inherits is never stored. -/
theorem cacheInv_httpHeaderToScgiHeaderProperty (map : List (Str × Str)) (h : Str)
    (hinv : CacheInv map) : CacheInv (httpHeaderToScgiHeaderProperty map h).2 := by
  by_cases hh : h ∈ objectPrototypeMembers
  · unfold httpHeaderToScgiHeaderProperty jsGet
    cases hl : map.lookup h with
    | none => simpa [hh, JSValue.truthy] using hinv
    | some v =>
      have hv : v = scgiFieldName h := hinv h v (lookup_mem hl)
      have ht : (JSValue.string v).truthy = true := by
        rw [hv]
        simp [JSValue.truthy, scgiFieldName]
      simpa [ht] using hinv
  · exact (httpHeaderToScgiHeaderProperty_sound map h hinv hh).2

theorem newConnection_fields {pv : Str} {arg : ConstructorArg} {fuel : Nat}
    {conn : ConnectionObject} (h : newConnection pv arg fuel = Outcome.done conn) :
    conn.mountPointLength = none ∧ conn.staticHeaderBuffer = staticHeaderBuffer pv ∧
      conn.pool.waitingRequests = [] ∧ conn.pool.servers = [] := by
  unfold newConnection at h
  simp only [] at h
  split at h
  · simp only [Outcome.done.injEq] at h
    subst h
    exact ⟨rfl, rfl, rfl, rfl⟩
  · exact Outcome.noConfusion h
  · exact Outcome.noConfusion h

/-- On every constructed object, `handle` builds the header block with no mount point
length: `PATH_INFO` is the whole path. -/
theorem handleHeadersBuffer_of_constructed {pv : Str} {arg : ConstructorArg} {fuel : Nat}
    {conn : ConnectionObject} (h : newConnection pv arg fuel = Outcome.done conn)
    (map : List (Str × Str)) (req : ServerRequest) :
    conn.handleHeadersBuffer map req = handleHeadersBuffer pv none map req ∧
      (PATH_INFO, req.url.pathname) ∈ requestPairs conn.mountPointLength req := by
  obtain ⟨h1, h2, _, _⟩ := newConnection_fields h
  refine ⟨?_, ?_⟩
  · unfold ConnectionObject.handleHeadersBuffer handleHeadersBuffer
    rw [h1, h2]
  · rw [h1]
    simp [requestPairs, jsSlice]

/-- Were `mountPointLength` the length of the mount point, `slice` would strip it. -/
theorem jsSlice_mountPoint (mountPoint rest : Str) :
    jsSlice (mountPoint ++ rest) (some (mountPoint.length : Int)) = rest := by
  simp [jsSlice]

theorem marks_append (sid : Nat) (l₁ l₂ : List Event) :
    marks sid (l₁ ++ l₂) = marks sid l₁ ++ marks sid l₂ := by
  simp [marks, List.filterMap_append]

theorem markInv_ofConnectors (cs : List (Option Connector)) :
    MarkInv (Connection.ofConnectors cs) := by
  intro sid
  simp [Connection.ofConnectors, marks]

theorem markInv_handleRequest {s : Connection} (h : MarkInv s) (req : Nat) (c : Connector) :
    MarkInv (handleRequest s req c) := by
  intro sid
  have hs := h sid
  simp only [handleRequest, marks_append]
  rcases Nat.lt_trichotomy sid s.servers.length with hlt | heq | hgt
  · rw [List.getElem?_append_left hlt, hs]
    simp [marks]
  · subst heq
    rw [List.getElem?_length] at hs
    rw [List.getElem?_concat_length, hs]
    simp [marks]
  · rw [List.getElem?_eq_none (by omega)] at hs
    rw [List.getElem?_eq_none (by simp; omega), hs]
    simp [marks]

theorem markInv_handle {s : Connection} (h : MarkInv s) (req : Nat) : MarkInv (handle s req) := by
  unfold handle
  split
  · exact markInv_handleRequest (s := { s with idleServerConnectors := _ }) h req _
  · intro sid
    have hs := h sid
    simp only [marks_append, hs]
    simp [marks]
  · intro sid
    have hs := h sid
    simp only [marks_append, hs]
    simp [marks]

theorem markInv_emitEnd {s : Connection} (h : MarkInv s) (i : Nat) (flag : Bool) :
    MarkInv (emitEnd s i flag) := by
  unfold emitEnd
  split
  · exact h
  · rename_i sv hsv
    split
    · rename_i hl
      have hi : i < s.servers.length := (List.getElem?_eq_some.1 hsv).1
      -- the marks after line 183, before the release step
      have key : ∀ sid, marks sid
            (s.log ++ (if flag then [] else [Event.cleanup i])
              ++ [Event.emitEnd i sv.req sv.connector.id]) =
          if sid = i then [Mark.emitted sv.req sv.connector.id] else
            match (s.servers.set i { sv with endListener := false })[sid]? with
            | some sv =>
              if sv.endListener then []
              else [Mark.emitted sv.req sv.connector.id, Mark.released sv.connector]
            | none => [] := by
        intro sid
        have hs := h sid
        by_cases hsi : sid = i
        · subst hsi
          rw [hsv] at hs
          simp only [marks_append, hs, hl]
          cases flag <;> simp [marks]
        · rw [List.getElem?_set_ne (Ne.symm hsi)]
          simp only [marks_append, hs, if_neg hsi]
          cases flag <;> simp [marks, Ne.symm hsi]
      unfold endHandler
      simp only []
      split
      · rename_i w ws hw
        apply markInv_handleRequest
        intro sid
        have hk := key sid
        simp only [marks_append] at hk ⊢
        by_cases hsi : sid = i
        · subst hsi
          rw [List.getElem?_set_self hi]
          simp only [if_pos rfl] at hk
          rw [hk]
          simp [marks]
        · simp only [if_neg hsi] at hk
          rw [← hk]
          simp [marks, Ne.symm hsi]
      · intro sid
        have hk := key sid
        simp only [marks_append] at hk ⊢
        by_cases hsi : sid = i
        · subst hsi
          rw [List.getElem?_set_self hi]
          simp only [if_pos rfl] at hk
          rw [hk]
          simp [marks]
        · simp only [if_neg hsi] at hk
          rw [← hk]
          simp [marks, Ne.symm hsi]
    · exact h

theorem markInv_foldl_emitEnd (l : List Nat) (flag : Bool) :
    ∀ {s : Connection}, MarkInv s → MarkInv (l.foldl (fun st sid => emitEnd st sid flag) s) := by
  induction l with
  | nil => intro s h; exact h
  | cons a l ih => intro s h; exact ih (markInv_emitEnd h a flag)

theorem markInv_step {s : Connection} (h : MarkInv s) (op : Op) : MarkInv (step s op) := by
  cases op with
  | handle req => exact markInv_handle h req
  | serverEnd sid => exact markInv_emitEnd h sid false
  | reqClose req => exact markInv_foldl_emitEnd _ true h

theorem markInv_run (ops : List Op) : ∀ {s : Connection}, MarkInv s → MarkInv (run s ops) := by
  induction ops with
  | nil => intro s h; exact h
  | cons a l ih => intro s h; exact ih (markInv_step h a)

/-- C17. For every Exchange (a transport `sid` in a state reached by any steps `pre`) and
all further steps `post`: when the Exchange has terminated, by the backend `'end'` or by the
client `'close'`, in `post` or before, the log holds for it exactly one `'end'` event of the
`Connection`, with the request of the Exchange and the id of its connector as arguments, and
after it the one release of the connector (to the next waiting request or to the idle
list); when it has not terminated, the log holds neither. -/
theorem end_event_once_before_release (cs : List (Option Connector)) (pre post : List Op)
    (sid : Nat) (sv : Server)
    (h : (run (Connection.ofConnectors cs) pre).servers[sid]? = some sv) :
    marks sid (run (Connection.ofConnectors cs) (pre ++ post)).log =
      if !sv.endListener || post.any (Op.triggers sid sv.req)
      then [Mark.emitted sv.req sv.connector.id, Mark.released sv.connector] else [] := by
  have ht : Tracked sid sv.req sv.connector (!sv.endListener)
      (run (Connection.ofConnectors cs) pre) := ⟨sv, h, rfl, rfl, by simp⟩
  obtain ⟨sv2, hsv2, hr2, hc2, hl2⟩ := tracked_run post ht
  have hinv := markInv_run (pre ++ post) (markInv_ofConnectors cs) sid
  rw [run_append, hsv2] at hinv
  rw [run_append, hinv]
  simp only [hl2, hc2, hr2]
  cases (!sv.endListener || post.any (Op.triggers sid sv.req)) <;> simp

/-- Witness of C17: two requests on one connector; the first Exchange ends by the backend
`'end'`: one `'end'` event with the request 7 and the connector id 1, then the release. -/
theorem end_event_once_before_release_witness :
    (run (Connection.ofConnectors [some ⟨1, ⟨none, none, some ['s']⟩⟩])
        [Op.handle 7, Op.handle 8]).servers[0]?
      = some ⟨7, ⟨1, ⟨none, none, some ['s']⟩⟩, true⟩ ∧
    marks 0 (run (Connection.ofConnectors [some ⟨1, ⟨none, none, some ['s']⟩⟩])
        ([Op.handle 7, Op.handle 8] ++ [Op.serverEnd 0, Op.reqClose 7])).log
      = [Mark.emitted 7 1, Mark.released ⟨1, ⟨none, none, some ['s']⟩⟩] :=
  ⟨by decide,
   (end_event_once_before_release [some ⟨1, ⟨none, none, some ['s']⟩⟩]
      [Op.handle 7, Op.handle 8] [Op.serverEnd 0, Op.reqClose 7] 0
      ⟨7, ⟨1, ⟨none, none, some ['s']⟩⟩, true⟩ (by decide)).trans (by decide)⟩

/-! ## C19 -/

theorem workInv_handle {s : Connection} (h : WorkInv s) (req : Nat) : WorkInv (handle s req) := by
  unfold handle
  rcases h with ⟨hidle, _, _⟩ | ⟨hall, hq⟩
  · rw [hidle]
    exact Or.inr ⟨by simp, Or.inr rfl⟩
  · split
    · rename_i c rest hi
      right
      refine ⟨?_, Or.inl ?_⟩
      · intro x hx
        exact hall x (by rw [hi]; exact List.mem_cons_of_mem _ hx)
      · rcases hq with hw | he
        · exact hw
        · rw [hi] at he
          exact absurd he (by simp)
    · rename_i rest hi
      exact absurd rfl (hall none (by rw [hi]; exact List.mem_cons_self _ _))
    · rename_i hi
      exact Or.inr ⟨by simp [hi], Or.inr hi⟩

theorem workInv_emitEnd {s : Connection} (h : WorkInv s) (i : Nat) (flag : Bool) :
    WorkInv (emitEnd s i flag) := by
  unfold emitEnd
  split
  · exact h
  · rename_i sv hsv
    split
    · rcases h with ⟨_, hservers, _⟩ | ⟨hall, hq⟩
      · rw [hservers] at hsv
        simp at hsv
      · unfold endHandler
        simp only []
        split
        · rename_i w ws hw
          right
          refine ⟨hall, Or.inr ?_⟩
          rcases hq with h1 | h1
          · rw [h1] at hw
            exact absurd hw (by simp)
          · exact h1
        · rename_i hw
          right
          refine ⟨?_, Or.inl hw⟩
          intro x hx
          simp only [List.mem_append, List.mem_singleton] at hx
          rcases hx with hx | hx
          · exact hall x hx
          · rw [hx]
            simp
    · exact h

theorem workInv_foldl_emitEnd (l : List Nat) (flag : Bool) :
    ∀ {s : Connection}, WorkInv s → WorkInv (l.foldl (fun st sid => emitEnd st sid flag) s) := by
  induction l with
  | nil => intro s h; exact h
  | cons a l ih => intro s h; exact ih (workInv_emitEnd h a flag)

theorem workInv_step {s : Connection} (h : WorkInv s) (op : Op) : WorkInv (step s op) := by
  cases op with
  | handle req => exact workInv_handle h req
  | serverEnd sid => exact workInv_emitEnd h sid false
  | reqClose req => exact workInv_foldl_emitEnd _ true h

theorem workInv_run (ops : List Op) : ∀ {s : Connection}, WorkInv s → WorkInv (run s ops) := by
  induction ops with
  | nil => intro s h; exact h
  | cons a l ih => intro s h; exact ih (workInv_step h a)

theorem generatorLoop_connectors (f : Nat → SpecValue) :
    ∀ (fuel n : Nat) (idle : List (Option Connector)) (calls : List Nat)
      (r : List (Option Connector) × List Nat),
      generatorLoop f fuel n idle calls = Outcome.done r →
      (∀ x ∈ idle, x ≠ none) → ∀ x ∈ r.1, x ≠ none := by
  intro fuel
  induction fuel with
  | zero =>
    intro n idle calls r h
    exact Outcome.noConfusion h
  | succ fuel ih =>
    intro n idle calls r h hall
    unfold generatorLoop at h
    split at h
    · exact Outcome.noConfusion h
    · rename_i c hc
      refine ih _ _ _ r h ?_
      intro x hx
      simp only [List.mem_append, List.mem_singleton] at hx
      rcases hx with hx | hx
      · exact hall x hx
      · rw [hx]
        simp
    · simp only [Outcome.done.injEq] at h
      rw [← h]
      exact hall

theorem workInv_newConnection {pv : Str} {arg : ConstructorArg} {fuel : Nat}
    {conn : ConnectionObject} (h : newConnection pv arg fuel = Outcome.done conn) :
    WorkInv conn.pool := by
  unfold newConnection at h
  cases arg with
  | function f =>
    simp only [] at h
    cases hl : generatorLoop f fuel 1 [] [] with
    | done r =>
      rw [hl] at h
      simp only [Outcome.done.injEq] at h
      subst h
      exact Or.inr ⟨generatorLoop_connectors f fuel 1 [] [] r hl (by simp), Or.inl rfl⟩
    | thrown e => rw [hl] at h; exact Outcome.noConfusion h
    | running => rw [hl] at h; exact Outcome.noConfusion h
  | value v =>
    simp only [] at h
    cases hg : getConnectorFromConnectionSpec v 1 with
    | error e => rw [hg] at h; exact Outcome.noConfusion h
    | ok c =>
      rw [hg] at h
      simp only [Outcome.done.injEq] at h
      subst h
      cases c with
      | none => exact Or.inl ⟨rfl, rfl, rfl⟩
      | some d => exact Or.inr ⟨by simp [Connection.ofConnectors], Or.inl rfl⟩

/-- C19. For every `Connection` that the constructor builds (from a specification, a `null`
or a generator) and every sequence of submissions, backend `'end'` events and client
`'close'` events on it: `waitingRequests` is empty or `idleServerConnectors` is empty. -/
theorem waiting_and_idle_never_both (pv : Str) (arg : ConstructorArg) (fuel : Nat)
    (conn : ConnectionObject) (ops : List Op)
    (h : newConnection pv arg fuel = Outcome.done conn) :
    (run conn.pool ops).waitingRequests = [] ∨ (run conn.pool ops).idleServerConnectors = [] := by
  rcases workInv_run ops (workInv_newConnection h) with ⟨hidle, _, hw⟩ | ⟨_, hq⟩
  · exact Or.inl hw
  · exact hq

/-- Witness of C19: one connector, three requests, then the first Exchange ends. -/
theorem waiting_and_idle_never_both_witness :
    newConnection "v0.8.0".toList
        (ConstructorArg.value (SpecValue.object ⟨none, none, some "/tmp/my_socket".toList⟩)) 0
      = Outcome.done
          { pool := Connection.ofConnectors
              [some { id := 1, specification := ⟨none, none, some "/tmp/my_socket".toList⟩ }]
            staticHeaderBuffer := staticHeaderBuffer "v0.8.0".toList
            mountPointLength := none
            specCalls := [] } ∧
    ((run (Connection.ofConnectors
          [some { id := 1, specification := ⟨none, none, some "/tmp/my_socket".toList⟩ }])
        [Op.handle 1, Op.handle 2, Op.handle 3, Op.serverEnd 0]).waitingRequests = [] ∨
      (run (Connection.ofConnectors
          [some { id := 1, specification := ⟨none, none, some "/tmp/my_socket".toList⟩ }])
        [Op.handle 1, Op.handle 2, Op.handle 3, Op.serverEnd 0]).idleServerConnectors = []) :=
  ⟨by decide,
   waiting_and_idle_never_both "v0.8.0".toList
     (ConstructorArg.value (SpecValue.object ⟨none, none, some "/tmp/my_socket".toList⟩)) 0
     { pool := Connection.ofConnectors
         [some { id := 1, specification := ⟨none, none, some "/tmp/my_socket".toList⟩ }]
       staticHeaderBuffer := staticHeaderBuffer "v0.8.0".toList
       mountPointLength := none
       specCalls := [] }
     [Op.handle 1, Op.handle 2, Op.handle 3, Op.serverEnd 0] (by decide)⟩

/-! ## C20 -/

/-- C20, at the input on which the code fails: the constructor called with `null` (or with
no argument) does not raise; line 108 pushes the `null` that
`getConnectorFromConnectionSpec` returns, so `idleServerConnectors` is the list `[null]`.
A `handle` call on this non-empty idle list starts no Exchange: it takes the `null` off the
list and queues the request, and no transport exists. -/
theorem null_specification_leaves_null_idle :
    (newConnection "v0.8.0".toList (ConstructorArg.value SpecValue.null) 0).result.map
        (fun conn => conn.pool.idleServerConnectors) = some [none] ∧
    (newConnection "v0.8.0".toList (ConstructorArg.value SpecValue.null) 0).result.map
        (fun conn => (handle conn.pool 1).servers) = some [] ∧
    (newConnection "v0.8.0".toList (ConstructorArg.value SpecValue.null) 0).result.map
        (fun conn => (handle conn.pool 1).waitingRequests) = some [1] ∧
    (newConnection "v0.8.0".toList (ConstructorArg.value SpecValue.null) 0).result.map
        (fun conn => (run conn.pool [Op.handle 1, Op.handle 2]).log)
      = some [Event.queued 1, Event.queued 2] := by
  decide


end ScgiClient
